import Mathlib

/-!
Verification development for the kuroboros Kubernetes-operator framework.

The Python sources are shallowly embedded: JSON/dict values become the
mutual inductives `JVal`/`JArr`/`JObj`, Python exceptions become
constructors of `PyErr`, fallible code returns `Except PyErr _`, and
stateful components (controller membership, the reconciler loop) become
explicit state passing / step functions.  Each definition mirrors the
corresponding function in `src/kuroboros/*.py`.
-/

/-- Python exception classes appearing in the embedded code paths. -/
inductive PyErr where
  | runtimeError (msg : String)
  | runtimeWarning (msg : String)
  | valueError (msg : String)
  | keyError (msg : String)
  | typeError (msg : String)
  | assertionError (msg : String)
  | validationWebhookError (msg : String)
  | mutationWebhookError (msg : String)
  | apiException (status : Nat)
  | unrecoverableException (msg : String)
  | retriableException (backoffSec : Nat)
  | timeoutError
  | otherError (msg : String)
deriving DecidableEq, Repr

mutual

/-- JSON values, the wire representation Python handles as dicts/lists. -/
inductive JVal where
  | null
  | jbool (b : Bool)
  | jnum (n : Int)
  | jstr (s : String)
  | jarr (items : JArr)
  | jobj (fields : JObj)
deriving DecidableEq, Repr

/-- A JSON array (list of values). -/
inductive JArr where
  | nil
  | cons (v : JVal) (rest : JArr)
deriving DecidableEq, Repr

/-- A JSON object: association list of fields in insertion order, like a
Python dict. -/
inductive JObj where
  | nil
  | cons (k : String) (v : JVal) (rest : JObj)
deriving DecidableEq, Repr

end

namespace JObj

/-- Build an object from a list of key-value pairs. -/
def ofList : List (String × JVal) → JObj
  | [] => .nil
  | (k, v) :: rest => .cons k v (ofList rest)

/-- Python `d.get(k)` / `d[k]` lookup (first match wins). -/
def lookup : JObj → String → Option JVal
  | .nil, _ => none
  | .cons k' v rest, k => if k' = k then some v else lookup rest k

/-- Python `k in d`. -/
def hasKey (o : JObj) (k : String) : Bool :=
  (o.lookup k).isSome

/-- Python `d[k] = v`: replace in place if the key exists, else append. -/
def insert : JObj → String → JVal → JObj
  | .nil, k, v => .cons k v .nil
  | .cons k' v' rest, k, v =>
      if k' = k then .cons k' v rest else .cons k' v' (insert rest k v)

/-- Keep only the fields whose key is not in `ks` (Python dict
comprehension with a `not in` filter). -/
def strip : JObj → List String → JObj
  | .nil, _ => .nil
  | .cons k v rest, ks =>
      if ks.contains k then strip rest ks else .cons k v (strip rest ks)

/-- The keys of the object, in order. -/
def keys : JObj → List String
  | .nil => []
  | .cons k _ rest => k :: keys rest

/-- Python dict equality: insertion order is irrelevant, values are
compared structurally. -/
def dictEq (a b : JObj) : Bool :=
  (a.keys ++ b.keys).all (fun k => decide (a.lookup k = b.lookup k))

end JObj

namespace JArr

/-- Build an array from a list of values. -/
def ofList : List JVal → JArr
  | [] => .nil
  | v :: rest => .cons v (ofList rest)

/-- Python `x in xs` on a list. -/
def has (xs : JArr) (v : JVal) : Bool :=
  match xs with
  | .nil => false
  | .cons v' rest => v' = v || has rest v

/-- Python `xs.append(v)`. -/
def append (xs : JArr) (v : JVal) : JArr :=
  match xs with
  | .nil => .cons v .nil
  | .cons v' rest => .cons v' (append rest v)

/-- Python `xs.remove(v)`: drop the first occurrence. -/
def removeFirst (xs : JArr) (v : JVal) : JArr :=
  match xs with
  | .nil => .nil
  | .cons v' rest => if v' = v then rest else .cons v' (removeFirst rest v)

/-- Python `len(xs)`. -/
def length : JArr → Nat
  | .nil => 0
  | .cons _ rest => 1 + length rest

end JArr

namespace JVal

/-- Python truthiness of a JSON value (`if obj:`). -/
def truthy : JVal → Bool
  | .null => false
  | .jbool b => b
  | .jnum n => decide (n ≠ 0)
  | .jstr s => decide (s ≠ "")
  | .jarr .nil => false
  | .jarr (.cons _ _) => true
  | .jobj .nil => false
  | .jobj (.cons _ _ _) => true

end JVal

open JVal

/-- `NamespaceName`: the `(namespace, name)` pair used as identity for all
per-CR bookkeeping (`kuroboros.utils.NamespaceName`).  The components come
out of a JSON metadata block, hence `JVal`. -/
abbrev NamespaceName := JVal × JVal

/-- Embedding of `BaseCRD` instance state (`src/kuroboros/schema.py`).
`api` models whether the optional API handle is attached;
`group_version` is the scope of the attached `GroupVersionInfo`
(`none` when no GVI is attached — presence and scope are the only
aspects of these two objects the embedded code paths consult);
`crdData` is the backing `_data` dict. -/
structure BaseCRD where
  api : Bool
  group_version : Option String
  read_only : Bool
  crdData : JVal
deriving DecidableEq, Repr

namespace BaseCRD

/-- `BaseCRD.__init__` (schema.py:283-306): `data` defaults to `{}`;
constructing a read-only instance with empty data raises `ValueError`;
the data dict is deep-copied (identity on pure values). -/
def init (api : Bool) (group_version : Option String) (read_only : Bool)
    (data : Option JVal) : Except PyErr BaseCRD :=
  let d := data.getD (jobj .nil)
  if read_only ∧ d = jobj .nil then
    .error (.valueError "read_only CRD must have data provided")
  else
    .ok { api := api, group_version := group_version,
          read_only := read_only, crdData := d }

/-- `BaseCRD.metadata` property (schema.py:477-486): `_data["metadata"]`,
raising when absent; a non-dict value fails on later dict use, modelled
as a `typeError`. -/
def metadata (c : BaseCRD) : Except PyErr JObj :=
  match c.crdData with
  | jobj fields =>
      match fields.lookup "metadata" with
      | some (jobj m) => .ok m
      | some _ => .error (.typeError "metadata is not a dict")
      | none => .error (.runtimeError "method called at wrong time, no metadata present")
  | _ => .error (.typeError "_data is not a dict")

/-- `BaseCRD.get_data` (schema.py:328-342): metadata minus
`resourceVersion`/`managedFields`, `spec` and `status` defaulted to `{}`.
Top-level keys other than these three are not carried over. -/
def get_data (c : BaseCRD) : Except PyErr JVal := do
  let m ← c.metadata
  match c.crdData with
  | jobj fields =>
      .ok (jobj (JObj.ofList
        [("metadata", jobj (m.strip ["resourceVersion", "managedFields"])),
         ("spec", (fields.lookup "spec").getD (jobj .nil)),
         ("status", (fields.lookup "status").getD (jobj .nil))]))
  | _ => .error (.typeError "_data is not a dict")

/-- `BaseCRD.load_data` (schema.py:319-326): replaces the internal state
with a deep copy of the given dict. -/
def load_data (c : BaseCRD) (data : JVal) : Except PyErr BaseCRD :=
  match data with
  | jobj _ => .ok { c with crdData := data }
  | _ => .error (.typeError "data is not convertible to dict")

/-- `BaseCRD.finalizers` property (schema.py:518-526): `[]` if the key is
absent, otherwise the raw value of `metadata["finalizers"]`. -/
def finalizers (c : BaseCRD) : Except PyErr JVal := do
  let m ← c.metadata
  match m.lookup "finalizers" with
  | none => .ok (jarr .nil)
  | some v => .ok v

/-- `BaseCRD.namespace_name` property (schema.py:535-540):
`(metadata["namespace"], metadata["name"])`. -/
def namespace_name (c : BaseCRD) : Except PyErr NamespaceName := do
  let m ← c.metadata
  match m.lookup "namespace", m.lookup "name" with
  | some ns, some n => .ok (ns, n)
  | _, _ => .error (.keyError "namespace/name")

end BaseCRD

/-! ## GroupVersionInfo (src/kuroboros/group_version_info.py) -/

/-- The character class `\d` of the version regex, over ASCII. -/
def isDigitChar (c : Char) : Bool :=
  48 ≤ c.toNat && c.toNat ≤ 57

/-- The character class `[a-z]` of the version regex. -/
def isLowerChar (c : Char) : Bool :=
  97 ≤ c.toNat && c.toNat ≤ 122

/-- Greedy span: the maximal prefix satisfying `p`, and the remainder.
This is how a greedy `+` quantifier over a character class consumes its
input (the classes `\d` and `[a-z]` are disjoint, so the regex
`^v(\d+)(?:([a-z]+)(\d+))?$` matches deterministically). -/
def spanP (p : Char → Bool) : List Char → List Char × List Char
  | [] => ([], [])
  | c :: rest =>
      if p c then
        let s := spanP p rest
        (c :: s.1, s.2)
      else ([], c :: rest)

/-- Numeric value of a digit string, as Python `int()` computes it. -/
def digitsVal (cs : List Char) : Nat :=
  cs.foldl (fun a c => 10 * a + (c.toNat - 48)) 0

/-- The stability tokens of `GroupVersionInfo.__STABILITY_ORDER`
(`alpha`, `beta`, `stable`). -/
def stabilityKnown (s : String) : Bool :=
  s = "alpha" || s = "beta" || s = "stable"

/-- The parsing part of `GroupVersionInfo.__init__`
(group_version_info.py:48-63) at the character level: match
`^v(\d+)(?:([a-z]+)(\d+))?$`, default the stability to `stable` and the
minor to `0`, then require the stability token to be known.  Returns
`(major, stability, minor)`. -/
def parseApiVersionChars : List Char → Except PyErr (Nat × String × Nat)
  | [] => .error (.valueError "Invalid format")
  | c :: rest =>
      if c = 'v' then
        let s1 := spanP isDigitChar rest
        if s1.1 = [] then .error (.valueError "Invalid format")
        else
          match s1.2 with
          | [] => .ok (digitsVal s1.1, "stable", 0)
          | r1 =>
              let s2 := spanP isLowerChar r1
              let s3 := spanP isDigitChar s2.2
              if s2.1 = [] ∨ s3.1 = [] ∨ s3.2 ≠ [] then
                .error (.valueError "Invalid format")
              else if stabilityKnown (String.mk s2.1) then
                .ok (digitsVal s1.1, String.mk s2.1, digitsVal s3.1)
              else .error (.valueError "Unknown stability level")
      else .error (.valueError "Invalid format")

/-- `re.match` of the version pattern on a Python string. -/
def parseApiVersion (s : String) : Except PyErr (Nat × String × Nat) :=
  parseApiVersionChars s.data

/-- Embedding of `GroupVersionInfo` data relevant to the claims. -/
structure GroupVersionInfo where
  api_version : String
  group : String
  kind : String
  major : Nat
  stability : String
  minor : Nat
  scope : String := "Namespaced"
deriving DecidableEq, Repr

/-- `GroupVersionInfo.__init__` (group_version_info.py:48-69): parse the
apiVersion, store the pieces.  Singular/plural derivation (external
`inflect` library) carries no claim content and is omitted. -/
def GroupVersionInfo.init (api_version group kind : String) :
    Except PyErr GroupVersionInfo := do
  let (major, stability, minor) ← parseApiVersion api_version
  .ok { api_version := api_version, group := group, kind := kind,
        major := major, stability := stability, minor := minor }

/-- Claim-side checker (for refinement comparison only): acceptance by the
regex the spec states, `^v(\d+)(?:(alpha|beta)(\d+))?$` — the stability
word may only be `alpha` or `beta`. -/
def specApiVersionForm (s : String) : Bool :=
  match s.data with
  | 'v' :: rest =>
      let s1 := spanP isDigitChar rest
      if s1.1 = [] then false
      else
        match s1.2 with
        | [] => true
        | r1 =>
            let s2 := spanP isLowerChar r1
            let s3 := spanP isDigitChar s2.2
            decide ((String.mk s2.1 = "alpha" ∨ String.mk s2.1 = "beta") ∧
              s3.1 ≠ [] ∧ s3.2 = [])
  | _ => false

/-- The language the code actually accepts, stated declaratively:
`v` + nonempty digits, optionally followed by a stability word in
`{alpha, beta, stable}` + nonempty digits. -/
def GoodApiVersion (s : String) : Prop :=
  ∃ ds l ds₂ : List Char,
    s.data = 'v' :: ds ++ l ++ ds₂ ∧ ds ≠ [] ∧ (∀ c ∈ ds, isDigitChar c) ∧
      ((l = [] ∧ ds₂ = []) ∨
        ((String.mk l = "alpha" ∨ String.mk l = "beta" ∨ String.mk l = "stable") ∧
          ds₂ ≠ [] ∧ (∀ c ∈ ds₂, isDigitChar c)))

/-- Decimal digit characters of a natural number (its canonical decimal
representation, most significant digit first). -/
def natDigits (m : Nat) : List Char :=
  if m = 0 then ['0']
  else (Nat.digits 10 m).reverse.map (fun d => Char.ofNat (48 + d))

/-! ## BaseCRD mutation paths (schema.py: patch, finalizers, setattr) -/

namespace BaseCRD

/-- In-place mutation of `self.metadata[...]` as seen from the backing
`_data` dict (`self.metadata` returns the live `_data["metadata"]`
sub-dict). -/
def withMetadata (c : BaseCRD) (m : JObj) : BaseCRD :=
  match c.crdData with
  | jobj fields => { c with crdData := jobj (fields.insert "metadata" (jobj m)) }
  | _ => c

/-- `BaseCRD.patch` (schema.py:344-382): raises if the api handle or the
GVI is missing or the instance is read-only; computes
`new_state = get_data()`; for a Namespaced scope it issues the server
calls (status sub-resource first when present, then the full object) and
reloads from the response; for any other scope it does nothing.  The
Kubernetes API is external and is modelled as echoing the full-object
patch body, so the net reload is `load_data(new_state)`; the intermediate
status-call reload is overwritten by it. -/
def patch (c : BaseCRD) : Except PyErr BaseCRD :=
  if c.api = false then
    .error (.runtimeError "`patch` used when api is `None`")
  else
    match c.group_version with
    | none => .error (.runtimeError "`patch` used when group_version is `None`")
    | some scope =>
        if c.read_only then
          .error (.runtimeError "Cannot call `patch` on read-only CRD object")
        else do
          let new_state ← c.get_data
          if scope = "Namespaced" then do
            let _ ← c.namespace_name   -- metadata["namespace"] / ["name"] lookups of the calls
            c.load_data new_state
          else .ok c

/-- Python `finalizer in metadata["finalizers"]` (the in-operator on the
stored value): membership for a list; `None`, numbers and booleans raise
`TypeError` (not iterable).  A string or dict value would do a
substring/key test in Python; such degenerate finalizer values are not
exercised by any claim and are modelled as the same `TypeError`. -/
def pyInFinalizers (f : String) (v : JVal) : Except PyErr Bool :=
  match v with
  | jarr xs => .ok (xs.has (jstr f))
  | _ => .error (.typeError "argument is not iterable")

/-- `BaseCRD.add_finalizer` (schema.py:429-440).  Returns the updated
instance and whether `self.patch()` was invoked. -/
def add_finalizer (c : BaseCRD) (f : String) : Except PyErr (BaseCRD × Bool) := do
  let m ← c.metadata
  if ¬ m.hasKey "finalizers" then do
    let c' := c.withMetadata (m.insert "finalizers" (jarr (.cons (jstr f) .nil)))
    let c'' ← c'.patch
    .ok (c'', true)
  else
    match m.lookup "finalizers" with
    | some v => do
        let mem ← pyInFinalizers f v
        if ¬ mem then do
          match v with
          | jarr xs => do
              let c' := c.withMetadata (m.insert "finalizers" (jarr (xs.append (jstr f))))
              let c'' ← c'.patch
              .ok (c'', true)
          | _ => .error (.typeError "unreachable: membership succeeded on non-list")
        else .ok (c, false)
    | none => .error (.keyError "unreachable: hasKey finalizers")

/-- `BaseCRD.remove_finalizer` (schema.py:442-452).  Returns the updated
instance and whether `self.patch()` was invoked. -/
def remove_finalizer (c : BaseCRD) (f : String) : Except PyErr (BaseCRD × Bool) := do
  let m ← c.metadata
  if ¬ m.hasKey "finalizers" then .ok (c, false)
  else
    match m.lookup "finalizers" with
    | some v => do
        let mem ← pyInFinalizers f v
        if mem then do
          match v with
          | jarr xs => do
              let c' := c.withMetadata (m.insert "finalizers" (jarr (xs.removeFirst (jstr f))))
              let c'' ← c'.patch
              .ok (c'', true)
          | _ => .error (.typeError "unreachable: membership succeeded on non-list")
        else .ok (c, false)
    | none => .error (.keyError "unreachable: hasKey finalizers")

/-- `BaseCRD.__setattr__` on a declared spec property
(schema.py:412-427): a hard `RuntimeError` on a read-only instance;
otherwise writes `_data["spec"][name]`.  When `spec` is absent or not a
dict the raised KeyError/TypeError is swallowed and the write falls back
to a plain Python attribute, leaving `_data` untouched. -/
def set_attr (c : BaseCRD) (name : String) (v : JVal) : Except PyErr BaseCRD :=
  if c.read_only then
    .error (.runtimeError "Cannot set attribute on read-only CRD object")
  else
    match c.crdData with
    | jobj fields =>
        match fields.lookup "spec" with
        | some (jobj spec) =>
            .ok { c with crdData := jobj (fields.insert "spec" (jobj (spec.insert name v))) }
        | _ => .ok c
    | _ => .ok c

end BaseCRD

/-! ## Controller (src/kuroboros/controller.py) -/

/-- The bookkeeping state of a `Controller`: the keys of the `_members`
dict, the `_pending_remove` list, plus event logs recording which
reconciler threads were started (`thread_loop.start()` in `_add_member`)
and which received a stop event (`.set()` in `_remove_member`), so that
"the second call has no effect" is visible in the model. -/
structure ControllerState where
  members : List NamespaceName
  pending_remove : List NamespaceName
  started : List NamespaceName
  stopped : List NamespaceName
deriving DecidableEq, Repr

namespace Controller

/-- The fresh state built by `Controller.__init__` (controller.py:140-141). -/
def initialState : ControllerState :=
  { members := [], pending_remove := [], started := [], stopped := [] }

/-- `Controller._add_member` (controller.py:173-193): no effect when the
NamespaceName is already a member; otherwise starts a reconciler thread
and records the member.  The Python function receives the CRD instance
and keys on its `namespace_name`; the embedding keys on the
NamespaceName directly. -/
def add_member (s : ControllerState) (nn : NamespaceName) : ControllerState :=
  if nn ∈ s.members then s
  else { s with members := s.members ++ [nn], started := s.started ++ [nn] }

/-- `Controller._add_pending_remove` (controller.py:195-205). -/
def add_pending_remove (s : ControllerState) (nn : NamespaceName) : ControllerState :=
  if nn ∈ s.pending_remove then s
  else { s with pending_remove := s.pending_remove ++ [nn] }

/-- `Controller._remove_member` (controller.py:207-217): pops the member
and sets its stop event. -/
def remove_member (s : ControllerState) (nn : NamespaceName) : ControllerState :=
  if nn ∈ s.members then
    { s with members := s.members.erase nn, stopped := s.stopped ++ [nn] }
  else s

/-- The Python `crd_inst.finalizers is not None and len(crd_inst.finalizers) > 0`
check of `_watch_cr_events` (controller.py:356-359): `None` fails the
first test; `len` works on lists, strings and dicts and raises
`TypeError` otherwise (which the surrounding `except` turns into a
skipped event). -/
def finalizersNonEmpty (fin : JVal) : Except PyErr Bool :=
  match fin with
  | .null => .ok false
  | jarr xs => .ok (decide (xs.length > 0))
  | jstr s => .ok (decide (s.length > 0))
  | jobj m => .ok (decide (m.keys.length > 0))
  | _ => .error (.typeError "object has no len")

/-- The body of the per-event `try` block of `Controller._watch_cr_events`
(controller.py:346-364): read `event["type"]` and `event["object"]`,
build a CRD instance (`crd_type(api)` then `load_data`), then dispatch on
the event type.  Any raised exception is handled by the caller. -/
def watchStep (s : ControllerState) (fields : JObj) : Except PyErr ControllerState := do
  let e_type ← match fields.lookup "type" with
    | some v => Except.ok v
    | none => Except.error (.keyError "type")
  let obj ← match fields.lookup "object" with
    | some v => Except.ok v
    | none => Except.error (.keyError "object")
  let crd₀ ← BaseCRD.init true none false none
  let crd ← crd₀.load_data obj
  let nn ← crd.namespace_name
  if e_type = jstr "ADDED" ∨ e_type = jstr "MODIFIED" then
    .ok (add_member s nn)
  else if e_type = jstr "DELETED" then do
    let fin ← crd.finalizers
    let nonEmpty ← finalizersNonEmpty fin
    if nonEmpty then .ok (add_pending_remove s nn)
    else .ok (remove_member s nn)
  else
    .ok s    -- "event type not handled": warn only

/-- One event of the watcher loop (controller.py:339-373): non-dict
events are skipped with a warning; exceptions inside the per-event `try`
are logged and the loop continues with the state unchanged. -/
def handle_event (s : ControllerState) (ev : JVal) : ControllerState :=
  match ev with
  | jobj fields =>
      match watchStep s fields with
      | .ok s' => s'
      | .error _ => s
  | _ => s

/-- The verbs `Controller._check_permissions` reviews
(controller.py:148). -/
def permissionVerbs : List String :=
  ["create", "list", "watch", "delete", "get", "patch", "update"]

/-- The outcome of one `SelfSubjectAccessReview`: `none` models a
response with `status is None`, otherwise `(allowed, denied)`. -/
abbrev ReviewEnv := String → Option (Bool × Bool)

/-- Whether the review of a verb is an explicit denial that
`_check_permissions` reacts to: a status present, not allowed, with
`denied` set. -/
def explicitDenial (review : ReviewEnv) (verb : String) : Bool :=
  match review verb with
  | some (allowed, denied) => ¬ allowed ∧ denied
  | none => false

/-- `Controller._check_permissions` (controller.py:146-171), folded over
a verb list: an allowed review continues; an explicit denial raises
`RuntimeWarning`; a missing or indeterminate status continues. -/
def check_permissions (review : ReviewEnv) : List String → Except PyErr Unit
  | [] => .ok ()
  | verb :: rest =>
      match review verb with
      | some (allowed, denied) =>
          if allowed then check_permissions review rest
          else if denied then
            .error (.runtimeWarning
              ("operator doesn't have " ++ verb ++ " permission over the CRD"))
          else check_permissions review rest
      | none => check_permissions review rest

/-- `Controller.__init__` (controller.py:116-144): the validation-webhook
CR-type check, then `_check_permissions`, then the fresh state.
`has_validation` / `types_match` model the presence of a validation
webhook and whether its CR type equals the reconciler's. -/
def controllerInit (has_validation : Bool) (types_match : Bool)
    (review : ReviewEnv) : Except PyErr ControllerState := do
  if has_validation ∧ ¬ types_match then
    .error (.runtimeError "The validation webhook type must match the reconciler type")
  else do
    check_permissions review permissionVerbs
    .ok initialState

end Controller

/-! ## Operator.start, controller-construction phase
(src/kuroboros/operator.py:217-257) -/

/-- What one `ControllerConfig` contributes to `Operator.start`:
the controller name, whether the run version has a reconciler, the
validation-webhook data for the construction check, and the permission
reviews the construction will perform. -/
structure CtrlCfg where
  name : String
  has_reconciler : Bool
  has_validation : Bool
  types_match : Bool
  review : Controller.ReviewEnv

/-- The `for ctrl in controllers` loop of `Operator.start`
(operator.py:238-257) together with `Operator._add_controller`
(operator.py:125-145): a missing reconciler raises outside the `try` and
aborts start; any exception from controller construction (including the
duplicate-name check) is caught, logged as a warning, and the loop
continues with the next config.  Returns the names of the controllers
actually added. -/
def addControllers : List CtrlCfg → List String → Except PyErr (List String)
  | [], acc => .ok acc
  | cfg :: rest, acc =>
      if ¬ cfg.has_reconciler then
        .error (.runtimeError "reconciler `None`")
      else
        match (do
          let _ ← Controller.controllerInit cfg.has_validation cfg.types_match cfg.review
          if cfg.name ∈ acc then
            Except.error (PyErr.runtimeError "cannot add an already added controller")
          else Except.ok () : Except PyErr Unit) with
        | .ok _ => addControllers rest (acc ++ [cfg.name])
        | .error _ => addControllers rest acc

/-- The part of `Operator.start` (operator.py:217-257) that runs before
the run loop: reject an empty config list, then add the controllers.
An `.ok names` result means start proceeds into leader election and its
supervision run loop with exactly the controllers in `names`. -/
def operatorStartControllers (cfgs : List CtrlCfg) : Except PyErr (List String) :=
  match cfgs with
  | [] => .error (.runtimeError "no controllers found to run the operator")
  | _ => addControllers cfgs []

/-! ## Reconciler loop (src/kuroboros/reconciler.py:117-204) -/

/-- The outcome of one iteration's fetch + user `reconcile` call, the
oracle input of the loop model: either `reconcile` returned (an optional
requeue interval in seconds), or one of the exception classes of the
`except` chain was raised. -/
inductive ROutcome where
  | ret (interval : Option Nat)
  | api404
  | apiOther (status : Nat)
  | unrecoverable
  | retriable (backoffSec : Nat)
  | timeout
  | other
deriving DecidableEq, Repr

/-- How one iteration of `BaseReconciler.reconcilation_loop` updates the
`interval` variable (reconciler.py:122-197): a normal return replaces it;
`RetriableException` sets the backoff; `TimeoutError` sets
`timeout_requeue_time` when `timeout_retry` is enabled; every other
handler (404, other ApiException, `UnrecoverableException`, broad
`Exception`) only logs, leaving the interval from the previous iteration
in place. -/
def loopInterval (timeout_retry : Bool) (timeout_requeue : Option Nat)
    (prev : Option Nat) : ROutcome → Option Nat
  | .ret i => i
  | .api404 => prev
  | .apiOther _ => prev
  | .unrecoverable => prev
  | .retriable b => some b
  | .timeout => if timeout_retry then timeout_requeue else prev
  | .other => prev

/-- The number of iterations (fetch + reconcile attempts) the loop
executes when the stop event is never set and the iterations produce the
given outcomes: after each iteration the loop sleeps and continues iff
the interval is not `None` (reconciler.py:199-203). -/
def loopIterations (timeout_retry : Bool) (timeout_requeue : Option Nat) :
    Option Nat → List ROutcome → Nat
  | _, [] => 0
  | prev, o :: rest =>
      match loopInterval timeout_retry timeout_requeue prev o with
      | none => 1
      | some n => 1 + loopIterations timeout_retry timeout_requeue (some n) rest

/-! ## JSON patch, serialization and base64
(external collaborators of src/kuroboros/webhook.py) -/

/-- An RFC-6902 operation (the shapes `jsonpatch` emits). -/
inductive PatchOp where
  | add (path : String) (value : JVal)
  | remove (path : String)
  | replace (path : String) (value : JVal)
deriving DecidableEq, Repr

/-- Modelled from the spec: `jsonpatch.JsonPatch.from_diff` is an
external library; its contract (spec §4.5, §8) is that the emitted
RFC-6902 operations, applied to the first document, produce the second —
and the diff of equal documents is empty.  Modelled minimally as a
whole-document `replace` when the documents differ. -/
def jsonDiff (a b : JVal) : List PatchOp :=
  if a = b then [] else [.replace "" b]

/-- RFC-6902 application of a single operation.  The modelled diff only
produces whole-document `replace` (path `""`), so only that shape is
interpreted; other paths are out of the model. -/
def applyOp (doc : JVal) : PatchOp → Option JVal
  | .replace "" v => some v
  | _ => none

/-- RFC-6902 application of an operation list, left to right. -/
def applyPatch (ops : List PatchOp) (doc : JVal) : Option JVal :=
  ops.foldl (fun d op => d.bind (fun d' => applyOp d' op)) (some doc)

/-- JSON string escaping (quote and backslash; the further escapes of
`json.dumps` for control characters are not exercised here). -/
def escChars : List Char → List Char
  | [] => []
  | c :: rest =>
      if c = '"' then '\\' :: '"' :: escChars rest
      else if c = '\\' then '\\' :: '\\' :: escChars rest
      else c :: escChars rest

/-- Decimal text of an integer. -/
def intChars (n : Int) : List Char :=
  if n < 0 then '-' :: natDigits n.natAbs else natDigits n.natAbs

mutual

/-- Serialization of a JSON value to text (`json.dumps` with its default
compact-enough rendering; whitespace conventions are irrelevant to the
claims, which only decode what was encoded here). -/
def jsonPrint : JVal → List Char
  | .null => ['n', 'u', 'l', 'l']
  | .jbool true => ['t', 'r', 'u', 'e']
  | .jbool false => ['f', 'a', 'l', 's', 'e']
  | .jnum n => intChars n
  | .jstr s => '"' :: (escChars s.data ++ ['"'])
  | .jarr xs => '[' :: (jsonPrintArr xs ++ [']'])
  | .jobj m => Char.ofNat 123 :: (jsonPrintObj m ++ [Char.ofNat 125])

/-- Array elements, comma-separated. -/
def jsonPrintArr : JArr → List Char
  | .nil => []
  | .cons v .nil => jsonPrint v
  | .cons v (.cons w rest) =>
      jsonPrint v ++ ',' :: jsonPrintArr (.cons w rest)

/-- Object fields, comma-separated `"key": value` pairs. -/
def jsonPrintObj : JObj → List Char
  | .nil => []
  | .cons k v .nil => '"' :: (escChars k.data ++ '"' :: ':' :: jsonPrint v)
  | .cons k v (.cons k' v' rest) =>
      ('"' :: (escChars k.data ++ '"' :: ':' :: jsonPrint v)) ++
        ',' :: jsonPrintObj (.cons k' v' rest)

end

/-- The JSON value of one RFC-6902 operation, as `jsonpatch` renders it. -/
def opToJVal : PatchOp → JVal
  | .add p v => jobj (JObj.ofList [("op", jstr "add"), ("path", jstr p), ("value", v)])
  | .remove p => jobj (JObj.ofList [("op", jstr "remove"), ("path", jstr p)])
  | .replace p v => jobj (JObj.ofList [("op", jstr "replace"), ("path", jstr p), ("value", v)])

/-- `json.dumps(patch_ops)`: the JSON text of the operations array. -/
def printPatch (ops : List PatchOp) : List Char :=
  jsonPrint (jarr (JArr.ofList (ops.map opToJVal)))

/-- `.encode("utf-8")` at the char-code level (multi-byte UTF-8 encoding
of non-ASCII characters is not modelled; the claims constrain it through
an ASCII side condition). -/
def strBytes (cs : List Char) : List Nat :=
  cs.map Char.toNat

/-- The base64 alphabet. -/
def b64Alphabet : List Char :=
  "ABCDEFGHIJKLMNOPQRSTUVWXYZabcdefghijklmnopqrstuvwxyz0123456789+/".data

/-- The base64 digit for a 6-bit value. -/
def b64Char (n : Nat) : Char :=
  b64Alphabet.getD n '?'

/-- Position of a character in the base64 alphabet. -/
def b64ValAux : List Char → Nat → Char → Option Nat
  | [], _, _ => none
  | a :: rest, i, c => if a = c then some i else b64ValAux rest (i + 1) c

/-- Inverse base64 digit. -/
def b64Val (c : Char) : Option Nat :=
  b64ValAux b64Alphabet 0 c

/-- `base64.b64encode` over a byte list (RFC 4648 with `=` padding). -/
def b64Encode : List Nat → List Char
  | [] => []
  | [a] => [b64Char (a / 4), b64Char (a % 4 * 16), '=', '=']
  | [a, b] => [b64Char (a / 4), b64Char (a % 4 * 16 + b / 16), b64Char (b % 16 * 4), '=']
  | a :: b :: c :: rest =>
      b64Char (a / 4) :: b64Char (a % 4 * 16 + b / 16) ::
        b64Char (b % 16 * 4 + c / 64) :: b64Char (c % 64) :: b64Encode rest

/-- `base64.b64decode` over the text form (strict: padding only at the
end). -/
def b64Decode : List Char → Option (List Nat)
  | [] => some []
  | c1 :: c2 :: c3 :: c4 :: rest => do
      let v1 ← b64Val c1
      let v2 ← b64Val c2
      if c3 = '=' then
        if c4 = '=' ∧ rest = [] then some [v1 * 4 + v2 / 16] else none
      else do
        let v3 ← b64Val c3
        if c4 = '=' then
          if rest = [] then some [v1 * 4 + v2 / 16, v2 % 16 * 16 + v3 / 4] else none
        else do
          let v4 ← b64Val c4
          let tail ← b64Decode rest
          some ((v1 * 4 + v2 / 16) :: (v2 % 16 * 16 + v3 / 4) :: (v3 % 4 * 64 + v4) :: tail)
  | _ => none

/-! ## Admission webhook endpoints (src/kuroboros/webhook.py) -/

/-- The read-only CR instance a validation endpoint builds from a request
object (webhook.py:143-153): `self._type(api=None, group_version=None,
read_only=True, data=obj)`. -/
def validationCRDInstance (obj : JVal) : Except PyErr BaseCRD :=
  BaseCRD.init false none true (some obj)

/-- The CR instance a mutation endpoint builds from a request object
(webhook.py:272-278): `self._type(api=None, group_version=None,
data=obj)` — `read_only` is left at its default `False`. -/
def mutationCRDInstance (obj : JVal) : Except PyErr BaseCRD :=
  BaseCRD.init false none false (some obj)

/-- Python `assert x is not None, msg` on an optional. -/
def assertSome (x : Option α) (msg : String) : Except PyErr α :=
  match x with
  | some a => .ok a
  | none => .error (.assertionError msg)

/-- Python `assert x is None, msg` on an optional. -/
def assertIsNone (x : Option α) (msg : String) : Except PyErr Unit :=
  match x with
  | some _ => .error (.assertionError msg)
  | none => .ok ()

/-- The user hooks of a `BaseValidationWebhook` subclass; each returns
normally or raises (a rejection raises `ValidationWebhookError`). -/
structure ValidationHooks where
  create : BaseCRD → Except PyErr Unit
  update : BaseCRD → BaseCRD → Except PyErr Unit
  delete : BaseCRD → Except PyErr Unit

/-- The `try` body of `BaseValidationWebhook.process`
(webhook.py:137-177), from a decoded request dict: build read-only CR
instances from truthy `object` / `oldObject`, enforce the per-operation
shape assertions, dispatch to the user hook, or reject an unsupported
operation. -/
def validationTryBody (hooks : ValidationHooks) (request : JObj) :
    Except PyErr Unit := do
  let op := (request.lookup "operation").getD .null
  let obj := (request.lookup "object").getD .null
  let old := (request.lookup "oldObject").getD .null
  let crd_instance ← if obj.truthy then do
      let c ← validationCRDInstance obj
      pure (some c)
    else pure none
  let old_crd_instance ← if old.truthy then do
      let c ← validationCRDInstance old
      pure (some c)
    else pure none
  if op = jstr "CREATE" then do
    let c ← assertSome crd_instance "CRD instance cannot be None for create operation"
    hooks.create c
  else if op = jstr "UPDATE" then do
    let c ← assertSome crd_instance "CRD instance cannot be None for update operation"
    let o ← assertSome old_crd_instance "old CRD instance cannot be None for update operation"
    hooks.update c o
  else if op = jstr "DELETE" then do
    assertIsNone crd_instance "CRD instance must be None for delete operation"
    let o ← assertSome old_crd_instance "old CRD instance cannot be None for delete operation"
    hooks.delete o
  else
    .error (.validationWebhookError "unsupported operation")

/-- The AdmissionReview response body the endpoints emit (uid, allowed,
optional status message, and for mutations the patch type and the
base64 patch text). -/
structure AdmissionResponse where
  uid : Option JVal
  allowed : Bool
  message : Option String
  patchType : Option String
  patch : Option (List Char)
deriving DecidableEq, Repr

/-- The `except` chain of `BaseValidationWebhook.process`
(webhook.py:180-243): success is HTTP 200 allowed; a
`ValidationWebhookError` is HTTP 200 not-allowed with the reason; an
`AssertionError` is HTTP 400 with its message; anything else is HTTP 500
with a generic message.  Every response carries `request.get("uid")`. -/
def validationRespond (request : JObj) (r : Except PyErr Unit) :
    Nat × AdmissionResponse :=
  let uid := request.lookup "uid"
  match r with
  | .ok _ =>
      (200, { uid := uid, allowed := true, message := none,
              patchType := none, patch := none })
  | .error (.validationWebhookError reason) =>
      (200, { uid := uid, allowed := false, message := some reason,
              patchType := none, patch := none })
  | .error (.assertionError m) =>
      (400, { uid := uid, allowed := false, message := some m,
              patchType := none, patch := none })
  | .error _ =>
      (500, { uid := uid, allowed := false, message := some "Validation webhook error",
              patchType := none, patch := none })

/-- `BaseValidationWebhook.process` (webhook.py:133-243) on a decoded
request dict: HTTP status and AdmissionReview response. -/
def validationProcess (hooks : ValidationHooks) (request : JObj) :
    Nat × AdmissionResponse :=
  validationRespond request (validationTryBody hooks request)

/-- The `try` body of `BaseMutationWebhook.process` (webhook.py:266-298):
build two instances from a truthy `object`, reject operations other than
CREATE/UPDATE, run the user `mutate`, and diff the `get_data()` views.
Returns the patch operations. -/
def mutationTryBody (mutate : BaseCRD → Except PyErr BaseCRD)
    (request : JObj) : Except PyErr (List PatchOp) := do
  let op := (request.lookup "operation").getD .null
  let obj := (request.lookup "object").getD .null
  let crd_instance ← if obj.truthy then do
      let c ← mutationCRDInstance obj
      pure (some c)
    else pure none
  let mutate_instance ← if obj.truthy then do
      let c ← mutationCRDInstance obj
      pure (some c)
    else pure none
  if ¬ (op = jstr "CREATE" ∨ op = jstr "UPDATE") then
    .error (.mutationWebhookError "unsupported operation")
  else do
    let ci ← assertSome crd_instance "CRD instance cannot be None for mutation"
    let mi ← assertSome mutate_instance "CRD instance cannot be None for mutation"
    let mutated ← mutate mi
    let a ← ci.get_data
    let b ← mutated.get_data
    .ok (jsonDiff a b)

/-- The default `BaseMutationWebhook.mutate` (webhook.py:257-261):
returns the instance unchanged. -/
def defaultMutate (c : BaseCRD) : Except PyErr BaseCRD :=
  .ok c

/-- The success/`except` mapping of `BaseMutationWebhook.process`
(webhook.py:300-369): on success HTTP 200 with `patchType="JSONPatch"`
and the base64 of the JSON operations array; a `MutationWebhookError` is
HTTP 200 not-allowed; an `AssertionError` is HTTP 400; anything else is
HTTP 500. -/
def mutationRespond (request : JObj) (r : Except PyErr (List PatchOp)) :
    Nat × AdmissionResponse :=
  let uid := request.lookup "uid"
  match r with
  | .ok ops =>
      (200, { uid := uid, allowed := true, message := none,
              patchType := some "JSONPatch",
              patch := some (b64Encode (strBytes (printPatch ops))) })
  | .error (.mutationWebhookError reason) =>
      (200, { uid := uid, allowed := false, message := some reason,
              patchType := none, patch := none })
  | .error (.assertionError m) =>
      (400, { uid := uid, allowed := false, message := some m,
              patchType := none, patch := none })
  | .error _ =>
      (500, { uid := uid, allowed := false, message := some "Mutation webhook error",
              patchType := none, patch := none })

/-- `BaseMutationWebhook.process` (webhook.py:263-369) on a decoded
request dict. -/
def mutationProcess (mutate : BaseCRD → Except PyErr BaseCRD)
    (request : JObj) : Nat × AdmissionResponse :=
  mutationRespond request (mutationTryBody mutate request)

/-! ## Claim-side definitions and concrete inputs -/

/-- Keep only the fields whose key is in `ks`. -/
def JObj.restrict : JObj → List String → JObj
  | .nil, _ => .nil
  | .cons k v rest, ks =>
      if ks.contains k then .cons k v (JObj.restrict rest ks)
      else JObj.restrict rest ks

/-- The transform claim C7 describes (claim-side, for refinement
comparison): the data dict with `resourceVersion`/`managedFields` removed
from its metadata and with `spec`/`status` defaulted to empty objects
when absent. -/
def claimStrip (fields : JObj) : JObj :=
  let f1 := match fields.lookup "metadata" with
    | some (jobj m) =>
        fields.insert "metadata"
          (jobj (m.strip ["resourceVersion", "managedFields"]))
    | _ => fields
  let f2 := if f1.hasKey "spec" then f1 else f1.insert "spec" (jobj .nil)
  if f2.hasKey "status" then f2 else f2.insert "status" (jobj .nil)

/-- The object `get_data` builds (schema.py:332-342), named so theorems
can refer to it. -/
def getDataView (fields m : JObj) : JObj :=
  JObj.ofList
    [("metadata", jobj (m.strip ["resourceVersion", "managedFields"])),
     ("spec", (fields.lookup "spec").getD (jobj .nil)),
     ("status", (fields.lookup "status").getD (jobj .nil))]

/-- A review environment that explicitly denies the `watch` verb and
allows every other verb. -/
def denyWatchReview : Controller.ReviewEnv :=
  fun verb => if verb = "watch" then some (false, true) else some (true, false)

/-- A controller config whose permission reviews deny `watch`. -/
def denyWatchCfg : CtrlCfg :=
  { name := "testv1", has_reconciler := true, has_validation := false,
    types_match := true, review := denyWatchReview }

/-- A request object carrying a `resourceVersion` (concrete input for the
mutation-webhook claims). -/
def mutObj : JVal :=
  jobj (JObj.ofList
    [("metadata", jobj (JObj.ofList
        [("name", jstr "x"), ("resourceVersion", jstr "1")]))])

/-- A CREATE mutation request carrying `mutObj`. -/
def mutRequest : JObj :=
  JObj.ofList
    [("uid", jstr "u1"), ("operation", jstr "CREATE"), ("object", mutObj)]

/-- `getData` of the CR instance built from `mutObj` (what the identity
mutation produces). -/
def mutGetData : JVal :=
  jobj (JObj.ofList
    [("metadata", jobj (JObj.ofList [("name", jstr "x")])),
     ("spec", jobj .nil), ("status", jobj .nil)])

/-- A concrete webhook request object with a metadata block and an empty
spec. -/
def webhookObj : JVal :=
  jobj (JObj.ofList
    [("metadata", jobj (JObj.ofList [("name", jstr "x")])),
     ("spec", jobj .nil)])

/-- A data dict with a top-level `kind` key next to the metadata block
(concrete input for claim C7). -/
def kindedData : JObj :=
  JObj.ofList
    [("kind", jstr "Foo"),
     ("metadata", jobj (JObj.ofList
        [("name", jstr "x"), ("resourceVersion", jstr "1")]))]

/-- The metadata block of `kindedData`. -/
def kindedMeta : JObj :=
  JObj.ofList [("name", jstr "x"), ("resourceVersion", jstr "1")]

/-- A writable CR instance over `kindedData`. -/
def kindedCRD : BaseCRD :=
  { api := true, group_version := some "Namespaced", read_only := false,
    crdData := jobj kindedData }

/-- A writable CR instance whose metadata has namespace and name but no
finalizers (concrete input for claim C6). -/
def finCRD : BaseCRD :=
  { api := true, group_version := some "Namespaced", read_only := false,
    crdData := jobj (JObj.ofList
      [("metadata", jobj (JObj.ofList
          [("namespace", jstr "ns"), ("name", jstr "n")])),
       ("spec", jobj .nil)]) }

/-- The state of `finCRD` after `add_finalizer "f"`: the finalizer list
set, the object reloaded from the patch body (`get_data` view). -/
def finCRDPatched : BaseCRD :=
  { api := true, group_version := some "Namespaced", read_only := false,
    crdData := jobj (JObj.ofList
      [("metadata", jobj (JObj.ofList
          [("namespace", jstr "ns"), ("name", jstr "n"),
           ("finalizers", jarr (.cons (jstr "f") .nil))])),
       ("spec", jobj .nil), ("status", jobj .nil)]) }

/-- A DELETED watch event whose object still carries a finalizer
(concrete input for claim C3). -/
def deletedEventFin : JObj :=
  JObj.ofList
    [("type", jstr "DELETED"),
     ("object", jobj (JObj.ofList
        [("metadata", jobj (JObj.ofList
            [("namespace", jstr "ns"), ("name", jstr "n"),
             ("finalizers", jarr (.cons (jstr "f") .nil))]))]))]

/-- The same event with an empty finalizers list. -/
def deletedEventNoFin : JObj :=
  JObj.ofList
    [("type", jstr "DELETED"),
     ("object", jobj (JObj.ofList
        [("metadata", jobj (JObj.ofList
            [("namespace", jstr "ns"), ("name", jstr "n"),
             ("finalizers", jarr .nil)]))]))]

/-- An ADDED watch event for the same object. -/
def addedEvent : JObj :=
  JObj.ofList
    [("type", jstr "ADDED"),
     ("object", jobj (JObj.ofList
        [("metadata", jobj (JObj.ofList
            [("namespace", jstr "ns"), ("name", jstr "n")]))]))]

/-- Validation hooks that accept everything (the `BaseValidationWebhook`
defaults, webhook.py:118-131). -/
def acceptHooks : ValidationHooks :=
  { create := fun _ => .ok (), update := fun _ _ => .ok (),
    delete := fun _ => .ok () }

/-- Validation hooks whose create hook rejects with a reason. -/
def rejectHooks : ValidationHooks :=
  { create := fun _ => .error (.validationWebhookError "bad object"),
    update := fun _ _ => .ok (), delete := fun _ => .ok () }

/-- Validation hooks whose create hook raises an unexpected error. -/
def crashHooks : ValidationHooks :=
  { create := fun _ => .error (.otherError "boom"),
    update := fun _ _ => .ok (), delete := fun _ => .ok () }

/-- A CREATE validation request carrying `webhookObj`. -/
def createRequest : JObj :=
  JObj.ofList
    [("uid", jstr "u2"), ("operation", jstr "CREATE"), ("object", webhookObj)]

/-- A DELETE validation request that wrongly carries an `object`
(request-shape violation). -/
def badDeleteRequest : JObj :=
  JObj.ofList
    [("uid", jstr "u3"), ("operation", jstr "DELETE"), ("object", webhookObj)]

/-! ## Helper lemmas -/

instance {ε α : Type _} [DecidableEq ε] [DecidableEq α] :
    DecidableEq (Except ε α) := fun a b =>
  match a, b with
  | .error e, .error e' =>
      if h : e = e' then .isTrue (by rw [h]) else
        .isFalse (fun he => h (Except.error.inj he))
  | .error _, .ok _ => .isFalse (fun he => Except.noConfusion he)
  | .ok _, .error _ => .isFalse (fun he => Except.noConfusion he)
  | .ok x, .ok y =>
      if h : x = y then .isTrue (by rw [h]) else
        .isFalse (fun he => h (Except.ok.inj he))

theorem jobj_lookup_insert_self :
    ∀ (m : JObj) (k : String) (v : JVal), (m.insert k v).lookup k = some v
  | .nil, k, v => by simp [JObj.insert, JObj.lookup]
  | .cons k' v' rest, k, v => by
      by_cases h : k' = k
      · simp [JObj.insert, JObj.lookup, h]
      · simp [JObj.insert, JObj.lookup, h,
          jobj_lookup_insert_self rest k v]

theorem jobj_lookup_insert_other :
    ∀ (m : JObj) (k k' : String) (v : JVal), k' ≠ k →
      (m.insert k v).lookup k' = m.lookup k'
  | .nil, k, k', v, h => by
      have h2 : ¬ (k = k') := fun he => h he.symm
      simp [JObj.insert, JObj.lookup, h2]
  | .cons ka va rest, k, k', v, h => by
      by_cases hk : ka = k
      · subst hk
        have h2 : ¬ (ka = k') := fun he => h he.symm
        simp [JObj.insert, JObj.lookup, h2]
      · simp [JObj.insert, JObj.lookup, hk,
          jobj_lookup_insert_other rest k k' v h]

theorem jobj_lookup_strip_not_mem :
    ∀ (m : JObj) (ks : List String) (k : String), k ∉ ks →
      (m.strip ks).lookup k = m.lookup k
  | .nil, ks, k, h => by simp [JObj.strip]
  | .cons ka va rest, ks, k, h => by
      by_cases hk : ka ∈ ks
      · have hne : ¬ (ka = k) := fun he => h (he ▸ hk)
        simp [JObj.strip, hk, JObj.lookup, hne,
          jobj_lookup_strip_not_mem rest ks k h]
      · simp [JObj.strip, hk, JObj.lookup,
          jobj_lookup_strip_not_mem rest ks k h]

theorem jobj_lookup_strip_mem :
    ∀ (m : JObj) (ks : List String) (k : String), k ∈ ks →
      (m.strip ks).lookup k = none
  | .nil, ks, k, h => by simp [JObj.strip, JObj.lookup]
  | .cons ka va rest, ks, k, h => by
      by_cases hk : ka ∈ ks
      · simp [JObj.strip, hk, jobj_lookup_strip_mem rest ks k h]
      · have hne : ¬ (ka = k) := fun he => hk (he ▸ h)
        simp [JObj.strip, hk, JObj.lookup, hne,
          jobj_lookup_strip_mem rest ks k h]

theorem jobj_lookup_restrict :
    ∀ (m : JObj) (ks : List String) (k : String),
      (m.restrict ks).lookup k =
        if k ∈ ks then m.lookup k else none
  | .nil, ks, k => by simp [JObj.restrict, JObj.lookup]
  | .cons ka va rest, ks, k => by
      by_cases he : ka = k
      · subst he
        by_cases hk : ka ∈ ks
        · simp [JObj.restrict, hk, JObj.lookup]
        · simp [JObj.restrict, hk, JObj.lookup,
            jobj_lookup_restrict rest ks ka]
      · by_cases hk : ka ∈ ks
        · simp [JObj.restrict, hk, JObj.lookup, he,
            jobj_lookup_restrict rest ks k]
        · simp [JObj.restrict, hk, JObj.lookup, he,
            jobj_lookup_restrict rest ks k]

theorem jobj_dictEq_of_lookup_eq {a b : JObj}
    (h : ∀ k, a.lookup k = b.lookup k) : JObj.dictEq a b = true := by
  simp only [JObj.dictEq, List.all_eq_true]
  intro k _
  simp [h k]

theorem jarr_has_append :
    ∀ (xs : JArr) (v : JVal), (xs.append v).has v = true
  | .nil, v => by simp [JArr.append, JArr.has]
  | .cons w rest, v => by
      simp [JArr.append, JArr.has, jarr_has_append rest v]

theorem jarr_removeFirst_length :
    ∀ (xs : JArr) (v : JVal), xs.has v = true →
      (xs.removeFirst v).length + 1 = xs.length
  | .nil, v, h => by simp [JArr.has] at h
  | .cons w rest, v, h => by
      by_cases he : w = v
      · simp [JArr.removeFirst, he, JArr.length]
        omega
      · simp [JArr.has, he] at h
        have ih := jarr_removeFirst_length rest v h
        simp [JArr.removeFirst, he, JArr.length]
        omega

theorem add_member_idem (s : ControllerState) (nn : NamespaceName) :
    Controller.add_member (Controller.add_member s nn) nn =
      Controller.add_member s nn := by
  by_cases h : nn ∈ s.members
  · simp [Controller.add_member, h]
  · simp [Controller.add_member, h]

theorem add_pending_remove_members (s : ControllerState) (nn : NamespaceName) :
    (Controller.add_pending_remove s nn).members = s.members := by
  by_cases h : nn ∈ s.pending_remove <;> simp [Controller.add_pending_remove, h]

/-- C3: for every well-formed watch event — a dict with `type` and an
`object` whose metadata has namespace and name — a DELETED event with a
non-empty finalizers list adds the NamespaceName to pending-remove and
leaves the membership untouched; a DELETED event with the finalizers key
absent or an empty list removes the member; ADDED and MODIFIED events
insert the member, idempotently (handling the same event twice equals
handling it once). -/
theorem watcher_event_dispatch
    (s : ControllerState) (fields ofields m : JObj) (ns n : JVal)
    (hobj : fields.lookup "object" = some (jobj ofields))
    (hmeta : ofields.lookup "metadata" = some (jobj m))
    (hns : m.lookup "namespace" = some ns)
    (hn : m.lookup "name" = some n) :
    (∀ xs : JArr, fields.lookup "type" = some (jstr "DELETED") →
      m.lookup "finalizers" = some (jarr xs) → xs ≠ .nil →
      Controller.handle_event s (jobj fields) =
        Controller.add_pending_remove s (ns, n) ∧
      (Controller.handle_event s (jobj fields)).members = s.members) ∧
    (fields.lookup "type" = some (jstr "DELETED") →
      (m.lookup "finalizers" = none ∨ m.lookup "finalizers" = some (jarr .nil)) →
      Controller.handle_event s (jobj fields) =
        Controller.remove_member s (ns, n)) ∧
    ((fields.lookup "type" = some (jstr "ADDED") ∨
        fields.lookup "type" = some (jstr "MODIFIED")) →
      Controller.handle_event s (jobj fields) =
        Controller.add_member s (ns, n) ∧
      Controller.handle_event (Controller.handle_event s (jobj fields))
          (jobj fields) =
        Controller.handle_event s (jobj fields)) := by
  refine ⟨?_, ?_, ?_⟩
  · intro xs hty hfin hne
    have hlen : (0 < xs.length) := by
      match xs, hne with
      | .cons v rest, _ => simp [JArr.length]
    have heq : Controller.handle_event s (jobj fields) =
        Controller.add_pending_remove s (ns, n) := by
      simp [Controller.handle_event, Controller.watchStep, hty, hobj,
        BaseCRD.init, BaseCRD.load_data, BaseCRD.namespace_name,
        BaseCRD.metadata, BaseCRD.finalizers, Controller.finalizersNonEmpty,
        hmeta, hns, hn, hfin, hlen, Bind.bind, Except.bind]
    exact ⟨heq, by rw [heq]; exact add_pending_remove_members s (ns, n)⟩
  · intro hty hfin
    rcases hfin with hfin | hfin <;>
      simp [Controller.handle_event, Controller.watchStep, hty, hobj,
        BaseCRD.init, BaseCRD.load_data, BaseCRD.namespace_name,
        BaseCRD.metadata, BaseCRD.finalizers, Controller.finalizersNonEmpty,
        hmeta, hns, hn, hfin, JArr.length, Bind.bind, Except.bind]
  · intro hty
    have heq : Controller.handle_event s (jobj fields) =
        Controller.add_member s (ns, n) := by
      rcases hty with hty | hty <;>
        simp [Controller.handle_event, Controller.watchStep, hty, hobj,
          BaseCRD.init, BaseCRD.load_data, BaseCRD.namespace_name,
          BaseCRD.metadata, hmeta, hns, hn, Bind.bind, Except.bind]
    have heq2 : Controller.handle_event (Controller.add_member s (ns, n))
        (jobj fields) = Controller.add_member (Controller.add_member s (ns, n)) (ns, n) := by
      rcases hty with hty | hty <;>
        simp [Controller.handle_event, Controller.watchStep, hty, hobj,
          BaseCRD.init, BaseCRD.load_data, BaseCRD.namespace_name,
          BaseCRD.metadata, hmeta, hns, hn, Bind.bind, Except.bind]
    refine ⟨heq, ?_⟩
    rw [heq, heq2, add_member_idem]

/-- Witness for C3: concrete DELETED events with and without finalizers,
and a concrete ADDED event, dispatched from the fresh controller state. -/
theorem watcher_event_dispatch_witness :
    (Controller.handle_event Controller.initialState (jobj deletedEventFin) =
        Controller.add_pending_remove Controller.initialState
          (jstr "ns", jstr "n") ∧
      (Controller.handle_event Controller.initialState
          (jobj deletedEventFin)).members = Controller.initialState.members) ∧
    Controller.handle_event Controller.initialState (jobj deletedEventNoFin) =
      Controller.remove_member Controller.initialState (jstr "ns", jstr "n") ∧
    Controller.handle_event Controller.initialState (jobj addedEvent) =
      Controller.add_member Controller.initialState (jstr "ns", jstr "n") ∧
    Controller.handle_event
        (Controller.handle_event Controller.initialState (jobj addedEvent))
        (jobj addedEvent) =
      Controller.handle_event Controller.initialState (jobj addedEvent) := by
  refine ⟨?_, ?_, ?_⟩
  · exact (watcher_event_dispatch Controller.initialState deletedEventFin
      (JObj.ofList [("metadata", jobj (JObj.ofList
        [("namespace", jstr "ns"), ("name", jstr "n"),
         ("finalizers", jarr (.cons (jstr "f") .nil))]))])
      (JObj.ofList
        [("namespace", jstr "ns"), ("name", jstr "n"),
         ("finalizers", jarr (.cons (jstr "f") .nil))])
      (jstr "ns") (jstr "n")
      (by decide) (by decide) (by decide) (by decide)).1
      (.cons (jstr "f") .nil) (by decide) (by decide) (by decide)
  · exact (watcher_event_dispatch Controller.initialState deletedEventNoFin
      (JObj.ofList [("metadata", jobj (JObj.ofList
        [("namespace", jstr "ns"), ("name", jstr "n"),
         ("finalizers", jarr .nil)]))])
      (JObj.ofList
        [("namespace", jstr "ns"), ("name", jstr "n"),
         ("finalizers", jarr .nil)])
      (jstr "ns") (jstr "n")
      (by decide) (by decide) (by decide) (by decide)).2.1
      (by decide) (Or.inr (by decide))
  · exact (watcher_event_dispatch Controller.initialState addedEvent
      (JObj.ofList [("metadata", jobj (JObj.ofList
        [("namespace", jstr "ns"), ("name", jstr "n")]))])
      (JObj.ofList [("namespace", jstr "ns"), ("name", jstr "n")])
      (jstr "ns") (jstr "n")
      (by decide) (by decide) (by decide) (by decide)).2.2
      (Or.inl (by decide))

theorem get_data_eval (c : BaseCRD) (fields m : JObj)
    (hdata : c.crdData = jobj fields)
    (hm : fields.lookup "metadata" = some (jobj m)) :
    BaseCRD.get_data c = .ok (jobj (getDataView fields m)) := by
  simp [BaseCRD.get_data, BaseCRD.metadata, hdata, hm, getDataView,
    Bind.bind, Except.bind]

theorem patch_ok_cases (c c₁ : BaseCRD) (fields m : JObj)
    (hdata : c.crdData = jobj fields)
    (hm : fields.lookup "metadata" = some (jobj m))
    (h : BaseCRD.patch c = .ok c₁) :
    c₁ = { c with crdData := jobj (getDataView fields m) } ∨ c₁ = c := by
  simp only [BaseCRD.patch] at h
  split at h
  · cases h
  · split at h
    · cases h
    · rename_i scope heq
      split at h
      · cases h
      · rw [get_data_eval c fields m hdata hm] at h
        simp only [Bind.bind, Except.bind] at h
        split at h
        · simp only [BaseCRD.namespace_name, BaseCRD.metadata, hdata, hm,
            Bind.bind, Except.bind] at h
          split at h
          · cases h
          · simp only [BaseCRD.load_data] at h
            cases h
            exact Or.inl rfl
        · cases h
          exact Or.inr rfl

theorem metadata_ok_spec (c : BaseCRD) (m : JObj) (h : c.metadata = .ok m) :
    ∃ fields, c.crdData = jobj fields ∧
      fields.lookup "metadata" = some (jobj m) := by
  rcases c with ⟨api, gv, ro, data⟩
  rcases data with _ | b | n | s | xs | fields
  · cases h
  · cases h
  · cases h
  · cases h
  · cases h
  · simp only [BaseCRD.metadata] at h
    rcases hl : fields.lookup "metadata" with _ | v
    · rw [hl] at h
      cases h
    · rw [hl] at h
      rcases v with _ | b | n | s | xs | mm
      · cases h
      · cases h
      · cases h
      · cases h
      · cases h
      · cases h
        exact ⟨fields, rfl, hl⟩

theorem withMetadata_metadata (c : BaseCRD) (fields m' : JObj)
    (hdata : c.crdData = jobj fields) :
    (c.withMetadata m').metadata = .ok m' ∧
    (c.withMetadata m').crdData =
      jobj (fields.insert "metadata" (jobj m')) := by
  constructor
  · simp [BaseCRD.withMetadata, hdata, BaseCRD.metadata,
      jobj_lookup_insert_self]
  · simp [BaseCRD.withMetadata, hdata]

theorem getDataView_metadata (fields m : JObj) :
    (getDataView fields m).lookup "metadata" =
      some (jobj (m.strip ["resourceVersion", "managedFields"])) := by
  simp [getDataView, JObj.ofList, JObj.lookup]

theorem add_finalizer_spec (c : BaseCRD) (f : String) (c₁ : BaseCRD) (p : Bool)
    (h : BaseCRD.add_finalizer c f = .ok (c₁, p)) :
    (∃ m₁ xs, c₁.metadata = .ok m₁ ∧
      m₁.lookup "finalizers" = some (jarr xs) ∧ xs.has (jstr f) = true) ∧
    (p = false → c₁ = c) ∧
    (p = true → c.finalizers ≠ c₁.finalizers) := by
  unfold BaseCRD.add_finalizer at h
  rcases hm : c.metadata with e | m
  · rw [hm] at h
    cases h
  rw [hm] at h
  simp only [Bind.bind, Except.bind] at h
  obtain ⟨fields, hdata, hmf⟩ := metadata_ok_spec c m hm
  by_cases hk : m.hasKey "finalizers" = true
  · -- key present: dispatch on the stored value and membership
    simp only [hk] at h
    simp only [JObj.hasKey, Option.isSome] at hk
    rcases hv : m.lookup "finalizers" with _ | v
    · rw [hv] at hk
      cases hk
    rw [hv] at h
    rcases v with _ | b | n | sv | xs | o
    rotate_left 4
    ·
      simp only [BaseCRD.pyInFinalizers, Bind.bind, Except.bind] at h
      by_cases hmem : xs.has (jstr f) = true
      · simp [hmem] at h
        obtain ⟨hc₁, hp⟩ := h
        subst hc₁
        subst hp
        refine ⟨⟨m, xs, hm, hv, hmem⟩, fun _ => rfl, ?_⟩
        intro hpt
        cases hpt
      · simp only [Bool.not_eq_true] at hmem
        simp [hmem] at h
        rcases hp : BaseCRD.patch
            (c.withMetadata (m.insert "finalizers" (jarr (xs.append (jstr f)))))
            with e | c''
        · rw [hp] at h
          cases h
        rw [hp] at h
        simp at h
        obtain ⟨hc₁, hpt⟩ := h
        subst hc₁
        subst hpt
        obtain ⟨hwm, hwd⟩ := withMetadata_metadata c fields
          (m.insert "finalizers" (jarr (xs.append (jstr f)))) hdata
        have hins := jobj_lookup_insert_self m "finalizers"
          (jarr (xs.append (jstr f)))
        rcases patch_ok_cases _ c'' (fields.insert "metadata"
            (jobj (m.insert "finalizers" (jarr (xs.append (jstr f))))))
            (m.insert "finalizers" (jarr (xs.append (jstr f))))
            hwd (jobj_lookup_insert_self fields "metadata" _) hp with hcase | hcase
        · -- reloaded from the patch body: metadata stripped
          have hmeta : c''.metadata = .ok ((m.insert "finalizers"
              (jarr (xs.append (jstr f)))).strip
                ["resourceVersion", "managedFields"]) := by
            rw [hcase]
            simp [BaseCRD.metadata, getDataView_metadata]
          have hlf : ((m.insert "finalizers"
              (jarr (xs.append (jstr f)))).strip
                ["resourceVersion", "managedFields"]).lookup "finalizers" =
              some (jarr (xs.append (jstr f))) := by
            rw [jobj_lookup_strip_not_mem _ _ _ (by decide)]
            exact hins
          refine ⟨⟨_, xs.append (jstr f), hmeta, hlf, jarr_has_append xs (jstr f)⟩,
            fun hpf => absurd hpf (by decide), ?_⟩
          intro _
          have hf1 : c.finalizers = .ok (jarr xs) := by
            simp [BaseCRD.finalizers, hm, hv, Bind.bind, Except.bind]
          have hf2 : c''.finalizers = .ok (jarr (xs.append (jstr f))) := by
            simp [BaseCRD.finalizers, hmeta, hlf, Bind.bind, Except.bind]
          rw [hf1, hf2]
          intro he
          have he3 : xs = xs.append (jstr f) :=
            JVal.jarr.inj (Except.ok.inj he)
          have hcontra : xs.has (jstr f) = true := by
            rw [he3]
            exact jarr_has_append xs (jstr f)
          rw [hmem] at hcontra
          exact Bool.noConfusion hcontra
        · -- non-Namespaced scope: no reload
          have hmeta : c''.metadata = .ok (m.insert "finalizers"
              (jarr (xs.append (jstr f)))) := by
            rw [hcase]
            exact hwm
          refine ⟨⟨_, xs.append (jstr f), hmeta, hins, jarr_has_append xs (jstr f)⟩,
            fun hpf => absurd hpf (by decide), ?_⟩
          intro _
          have hf1 : c.finalizers = .ok (jarr xs) := by
            simp [BaseCRD.finalizers, hm, hv, Bind.bind, Except.bind]
          have hf2 : c''.finalizers = .ok (jarr (xs.append (jstr f))) := by
            simp [BaseCRD.finalizers, hmeta, hins, Bind.bind, Except.bind]
          rw [hf1, hf2]
          intro he
          have he3 : xs = xs.append (jstr f) :=
            JVal.jarr.inj (Except.ok.inj he)
          have hcontra : xs.has (jstr f) = true := by
            rw [he3]
            exact jarr_has_append xs (jstr f)
          rw [hmem] at hcontra
          exact Bool.noConfusion hcontra
    all_goals
      simp only [BaseCRD.pyInFinalizers, Bind.bind, Except.bind] at h
      cases h
  · -- key absent: set ["f"] and patch
    simp only [Bool.not_eq_true] at hk
    simp [hk] at h
    have hlnone : m.lookup "finalizers" = none := by
      simp only [JObj.hasKey, Option.isSome] at hk
      rcases hl : m.lookup "finalizers" with _ | v
      · rfl
      · rw [hl] at hk
        simp at hk
    rcases hp : BaseCRD.patch
        (c.withMetadata (m.insert "finalizers" (jarr (.cons (jstr f) .nil))))
        with e | c''
    · rw [hp] at h
      cases h
    rw [hp] at h
    simp at h
    obtain ⟨hc₁, hpt⟩ := h
    subst hc₁
    subst hpt
    obtain ⟨hwm, hwd⟩ := withMetadata_metadata c fields
      (m.insert "finalizers" (jarr (.cons (jstr f) .nil))) hdata
    have hins := jobj_lookup_insert_self m "finalizers"
      (jarr (.cons (jstr f) .nil))
    have hf1 : c.finalizers = .ok (jarr .nil) := by
      simp [BaseCRD.finalizers, hm, hlnone, Bind.bind, Except.bind]
    rcases patch_ok_cases _ c'' (fields.insert "metadata"
        (jobj (m.insert "finalizers" (jarr (.cons (jstr f) .nil)))))
        (m.insert "finalizers" (jarr (.cons (jstr f) .nil)))
        hwd (jobj_lookup_insert_self fields "metadata" _) hp with hcase | hcase
    · have hmeta : c''.metadata = .ok ((m.insert "finalizers"
          (jarr (.cons (jstr f) .nil))).strip
            ["resourceVersion", "managedFields"]) := by
        rw [hcase]
        simp [BaseCRD.metadata, getDataView_metadata]
      have hlf : ((m.insert "finalizers"
          (jarr (.cons (jstr f) .nil))).strip
            ["resourceVersion", "managedFields"]).lookup "finalizers" =
          some (jarr (.cons (jstr f) .nil)) := by
        rw [jobj_lookup_strip_not_mem _ _ _ (by decide)]
        exact hins
      refine ⟨⟨_, .cons (jstr f) .nil, hmeta, hlf, by simp [JArr.has]⟩,
        fun hpf => absurd hpf (by decide), ?_⟩
      intro _
      have hf2 : c''.finalizers = .ok (jarr (.cons (jstr f) .nil)) := by
        simp [BaseCRD.finalizers, hmeta, hlf, Bind.bind, Except.bind]
      rw [hf1, hf2]
      intro he
      cases he
    · have hmeta : c''.metadata = .ok (m.insert "finalizers"
          (jarr (.cons (jstr f) .nil))) := by
        rw [hcase]
        exact hwm
      refine ⟨⟨_, .cons (jstr f) .nil, hmeta, hins, by simp [JArr.has]⟩,
        fun hpf => absurd hpf (by decide), ?_⟩
      intro _
      have hf2 : c''.finalizers = .ok (jarr (.cons (jstr f) .nil)) := by
        simp [BaseCRD.finalizers, hmeta, hins, Bind.bind, Except.bind]
      rw [hf1, hf2]
      intro he
      cases he

theorem add_finalizer_noop (c : BaseCRD) (m : JObj) (xs : JArr) (f : String)
    (hm : c.metadata = .ok m)
    (hfin : m.lookup "finalizers" = some (jarr xs))
    (hhas : xs.has (jstr f) = true) :
    BaseCRD.add_finalizer c f = .ok (c, false) := by
  simp [BaseCRD.add_finalizer, hm, JObj.hasKey, hfin,
    BaseCRD.pyInFinalizers, hhas, Bind.bind, Except.bind]

theorem remove_finalizer_noop (c : BaseCRD) (m : JObj) (f : String)
    (hm : c.metadata = .ok m)
    (hcase : m.lookup "finalizers" = none ∨
      ∃ xs, m.lookup "finalizers" = some (jarr xs) ∧
        xs.has (jstr f) = false) :
    BaseCRD.remove_finalizer c f = .ok (c, false) := by
  rcases hcase with hfin | ⟨xs, hfin, hhas⟩
  · simp [BaseCRD.remove_finalizer, hm, JObj.hasKey, hfin,
      Bind.bind, Except.bind]
  · simp [BaseCRD.remove_finalizer, hm, JObj.hasKey, hfin,
      BaseCRD.pyInFinalizers, hhas, Bind.bind, Except.bind]

theorem remove_finalizer_spec (c : BaseCRD) (f : String) (c₁ : BaseCRD)
    (p : Bool) (h : BaseCRD.remove_finalizer c f = .ok (c₁, p)) :
    (p = false → c₁ = c) ∧
    (p = true → c.finalizers ≠ c₁.finalizers) := by
  unfold BaseCRD.remove_finalizer at h
  rcases hm : c.metadata with e | m
  · rw [hm] at h
    cases h
  rw [hm] at h
  simp only [Bind.bind, Except.bind] at h
  obtain ⟨fields, hdata, hmf⟩ := metadata_ok_spec c m hm
  by_cases hk : m.hasKey "finalizers" = true
  · simp only [hk] at h
    simp only [JObj.hasKey, Option.isSome] at hk
    rcases hv : m.lookup "finalizers" with _ | v
    · rw [hv] at hk
      cases hk
    rw [hv] at h
    rcases v with _ | b | n | sv | xs | o
    rotate_left 4
    ·
      simp only [BaseCRD.pyInFinalizers, Bind.bind, Except.bind] at h
      by_cases hmem : xs.has (jstr f) = true
      · simp only [hmem, if_true] at h
        rcases hp : BaseCRD.patch
            (c.withMetadata (m.insert "finalizers"
              (jarr (xs.removeFirst (jstr f)))))
            with e | c''
        · rw [hp] at h
          cases h
        rw [hp] at h
        simp at h
        obtain ⟨hc₁, hpt⟩ := h
        subst hc₁
        subst hpt
        obtain ⟨hwm, hwd⟩ := withMetadata_metadata c fields
          (m.insert "finalizers" (jarr (xs.removeFirst (jstr f)))) hdata
        have hins := jobj_lookup_insert_self m "finalizers"
          (jarr (xs.removeFirst (jstr f)))
        have hf1 : c.finalizers = .ok (jarr xs) := by
          simp [BaseCRD.finalizers, hm, hv, Bind.bind, Except.bind]
        have hlen := jarr_removeFirst_length xs (jstr f) hmem
        refine ⟨fun hpf => absurd hpf (by decide), ?_⟩
        intro _
        rcases patch_ok_cases _ c'' (fields.insert "metadata"
            (jobj (m.insert "finalizers" (jarr (xs.removeFirst (jstr f))))))
            (m.insert "finalizers" (jarr (xs.removeFirst (jstr f))))
            hwd (jobj_lookup_insert_self fields "metadata" _) hp with hcase | hcase
        · have hmeta : c''.metadata = .ok ((m.insert "finalizers"
              (jarr (xs.removeFirst (jstr f)))).strip
                ["resourceVersion", "managedFields"]) := by
            rw [hcase]
            simp [BaseCRD.metadata, getDataView_metadata]
          have hlf : ((m.insert "finalizers"
              (jarr (xs.removeFirst (jstr f)))).strip
                ["resourceVersion", "managedFields"]).lookup "finalizers" =
              some (jarr (xs.removeFirst (jstr f))) := by
            rw [jobj_lookup_strip_not_mem _ _ _ (by decide)]
            exact hins
          have hf2 : c''.finalizers = .ok (jarr (xs.removeFirst (jstr f))) := by
            simp [BaseCRD.finalizers, hmeta, hlf, Bind.bind, Except.bind]
          rw [hf1, hf2]
          intro he
          have he3 : xs = xs.removeFirst (jstr f) :=
            JVal.jarr.inj (Except.ok.inj he)
          rw [← he3] at hlen
          omega
        · have hmeta : c''.metadata = .ok (m.insert "finalizers"
              (jarr (xs.removeFirst (jstr f)))) := by
            rw [hcase]
            exact hwm
          have hf2 : c''.finalizers = .ok (jarr (xs.removeFirst (jstr f))) := by
            simp [BaseCRD.finalizers, hmeta, hins, Bind.bind, Except.bind]
          rw [hf1, hf2]
          intro he
          have he3 : xs = xs.removeFirst (jstr f) :=
            JVal.jarr.inj (Except.ok.inj he)
          rw [← he3] at hlen
          omega
      · simp only [Bool.not_eq_true] at hmem
        simp [hmem] at h
        obtain ⟨hc₁, hpt⟩ := h
        subst hc₁
        subst hpt
        exact ⟨fun _ => rfl, fun hpt => absurd hpt (by decide)⟩
    all_goals
      simp only [BaseCRD.pyInFinalizers, Bind.bind, Except.bind] at h
      cases h
  · simp only [Bool.not_eq_true] at hk
    simp [hk] at h
    obtain ⟨hc₁, hpt⟩ := h
    subst hc₁
    subst hpt
    exact ⟨fun _ => rfl, fun hpt => absurd hpt (by decide)⟩

theorem add_pending_remove_idem (s : ControllerState) (nn : NamespaceName) :
    Controller.add_pending_remove (Controller.add_pending_remove s nn) nn =
      Controller.add_pending_remove s nn := by
  by_cases h : nn ∈ s.pending_remove
  · simp [Controller.add_pending_remove, h]
  · simp [Controller.add_pending_remove, h]

/-- C6: membership and finalizer operations are idempotent — `_add_member`
twice equals once, `_add_pending_remove` twice equals once,
`add_finalizer` twice equals once (the second call returns the same
state without issuing a patch), `remove_finalizer` of an absent
finalizer is a no-op — and a finalizer operation issues a server patch
exactly when it returns an updated state whose finalizer list differs
(no patch means the state is returned unchanged). -/
theorem membership_finalizer_idempotence :
    (∀ (s : ControllerState) (nn : NamespaceName),
      Controller.add_member (Controller.add_member s nn) nn =
        Controller.add_member s nn) ∧
    (∀ (s : ControllerState) (nn : NamespaceName),
      Controller.add_pending_remove (Controller.add_pending_remove s nn) nn =
        Controller.add_pending_remove s nn) ∧
    (∀ (c : BaseCRD) (f : String) (c₁ : BaseCRD) (p : Bool),
      BaseCRD.add_finalizer c f = .ok (c₁, p) →
      BaseCRD.add_finalizer c₁ f = .ok (c₁, false)) ∧
    (∀ (c : BaseCRD) (m : JObj) (f : String),
      c.metadata = .ok m →
      (m.lookup "finalizers" = none ∨
        ∃ xs, m.lookup "finalizers" = some (jarr xs) ∧
          xs.has (jstr f) = false) →
      BaseCRD.remove_finalizer c f = .ok (c, false)) ∧
    (∀ (c : BaseCRD) (f : String) (c₁ : BaseCRD) (p : Bool),
      BaseCRD.add_finalizer c f = .ok (c₁, p) →
      (p = false → c₁ = c) ∧ (p = true → c.finalizers ≠ c₁.finalizers)) ∧
    (∀ (c : BaseCRD) (f : String) (c₁ : BaseCRD) (p : Bool),
      BaseCRD.remove_finalizer c f = .ok (c₁, p) →
      (p = false → c₁ = c) ∧ (p = true → c.finalizers ≠ c₁.finalizers)) := by
  refine ⟨add_member_idem, add_pending_remove_idem, ?_, ?_, ?_, ?_⟩
  · intro c f c₁ p h
    obtain ⟨⟨m₁, xs, hm₁, hlf, hhas⟩, _, _⟩ := add_finalizer_spec c f c₁ p h
    exact add_finalizer_noop c₁ m₁ xs f hm₁ hlf hhas
  · intro c m f hm hcase
    exact remove_finalizer_noop c m f hm hcase
  · intro c f c₁ p h
    exact (add_finalizer_spec c f c₁ p h).2
  · intro c f c₁ p h
    exact remove_finalizer_spec c f c₁ p h

/-- Witness for C6: over a concrete writable CR without finalizers,
adding a finalizer patches once and a second add is a no-op; removing an
absent finalizer is a no-op. -/
theorem membership_finalizer_idempotence_witness :
    BaseCRD.add_finalizer finCRDPatched "f" = .ok (finCRDPatched, false) ∧
    BaseCRD.remove_finalizer finCRD "g" = .ok (finCRD, false) :=
  ⟨membership_finalizer_idempotence.2.2.1 finCRD "f" finCRDPatched true
      (by decide),
   membership_finalizer_idempotence.2.2.2.1 finCRD
      (JObj.ofList [("namespace", jstr "ns"), ("name", jstr "n")]) "g"
      (by decide) (Or.inl (by decide))⟩

theorem b64Val_b64Char (n : Nat) (h : n < 64) : b64Val (b64Char n) = some n := by
  interval_cases n <;> rfl

theorem b64Char_ne_pad (n : Nat) (h : n < 64) : b64Char n ≠ '=' := by
  intro he
  have hv : b64Val (b64Char n) = some n := b64Val_b64Char n h
  rw [he] at hv
  cases hv

theorem b64_roundtrip :
    ∀ bs : List Nat, (∀ x ∈ bs, x < 256) →
      b64Decode (b64Encode bs) = some bs
  | [], _ => rfl
  | [a], h => by
      have ha : a < 256 := h a (by simp)
      have h1 : a / 4 < 64 := by omega
      have h2 : a % 4 * 16 < 64 := by omega
      simp [b64Encode, b64Decode, b64Val_b64Char _ h1,
        b64Val_b64Char _ h2, Bind.bind, Option.bind]
      omega
  | [a, b], h => by
      have ha : a < 256 := h a (by simp)
      have hb : b < 256 := h b (by simp)
      have h1 : a / 4 < 64 := by omega
      have h2 : a % 4 * 16 + b / 16 < 64 := by omega
      have h3 : b % 16 * 4 < 64 := by omega
      simp [b64Encode, b64Decode, b64Val_b64Char _ h1,
        b64Val_b64Char _ h2, b64Val_b64Char _ h3, Bind.bind, Option.bind,
        if_neg (b64Char_ne_pad _ h3)]
      constructor <;> omega
  | a :: b :: c :: rest, h => by
      have ha : a < 256 := h a (by simp)
      have hb : b < 256 := h b (by simp)
      have hc : c < 256 := h c (by simp)
      have hrest : ∀ x ∈ rest, x < 256 := by
        intro x hx
        exact h x (by simp [hx])
      have h1 : a / 4 < 64 := by omega
      have h2 : a % 4 * 16 + b / 16 < 64 := by omega
      have h3 : b % 16 * 4 + c / 64 < 64 := by omega
      have h4 : c % 64 < 64 := by omega
      have ih := b64_roundtrip rest hrest
      simp [b64Encode, b64Decode, b64Val_b64Char _ h1,
        b64Val_b64Char _ h2, b64Val_b64Char _ h3, b64Val_b64Char _ h4,
        Bind.bind, Option.bind, if_neg (b64Char_ne_pad _ h3),
        if_neg (b64Char_ne_pad _ h4), ih]
      refine ⟨by omega, by omega, by omega⟩

theorem applyPatch_jsonDiff (a b : JVal) :
    applyPatch (jsonDiff a b) a = some b := by
  by_cases h : a = b
  · simp [jsonDiff, h, applyPatch]
  · simp [jsonDiff, h, applyPatch, applyOp]

theorem mutationCRDInstance_ok (v : JVal) :
    mutationCRDInstance v =
      .ok { api := false, group_version := none, read_only := false,
            crdData := v } := by
  simp [mutationCRDInstance, BaseCRD.init]

theorem mutationTryBody_eval (mutate : BaseCRD → Except PyErr BaseCRD)
    (request : JObj) (obj : JVal) (mc : BaseCRD) (a b : JVal)
    (hop : request.lookup "operation" = some (jstr "CREATE") ∨
      request.lookup "operation" = some (jstr "UPDATE"))
    (hobj : request.lookup "object" = some obj)
    (ht : obj.truthy = true)
    (hmut : mutate { api := false, group_version := none, read_only := false,
                     crdData := obj } = .ok mc)
    (ha : ({ api := false, group_version := none, read_only := false,
             crdData := obj } : BaseCRD).get_data = .ok a)
    (hb : mc.get_data = .ok b) :
    mutationTryBody mutate request = .ok (jsonDiff a b) := by
  rcases hop with hop | hop <;>
    simp [mutationTryBody, hop, hobj, ht, mutationCRDInstance_ok,
      assertSome, hmut, ha, hb, Bind.bind, Except.bind, pure, Except.pure]

/-- Counterexample to C2 as stated: for the concrete CREATE request whose
object carries a `resourceVersion`, the default (identity) mutation
produces an empty patch — the diff is taken between the `get_data()`
views, which already strip `resourceVersion` and default `spec`/`status`
— so applying the decoded patch to `request.object` returns
`request.object` itself, which differs from
`mutate(request.object).getData()`. -/
theorem mutation_patch_not_wrt_request_object :
    mutationTryBody defaultMutate mutRequest = .ok [] ∧
    applyPatch [] mutObj = some mutObj ∧
    (do
      let c ← mutationCRDInstance mutObj
      let c' ← defaultMutate c
      c'.get_data : Except PyErr JVal) = .ok mutGetData ∧
    mutObj ≠ mutGetData ∧
    mutationProcess defaultMutate mutRequest =
      (200, { uid := some (jstr "u1"), allowed := true, message := none,
              patchType := some "JSONPatch",
              patch := some (b64Encode (strBytes (printPatch []))) }) := by
  refine ⟨by decide, by decide, by decide, by decide, by decide⟩

/-- C2 amended: for every mutation request carrying a truthy object under
a CREATE or UPDATE operation, when the user mutation and the `get_data()`
views succeed the response is HTTP 200 with `patchType="JSONPatch"` and
a base64-encoded JSON array of RFC-6902 operations whose application to
the `get_data()` view of the CR instance built from `request.object`
yields exactly `mutate(request.object).get_data()`; the base64 text
decodes back to the serialized operations array. -/
theorem mutation_patch_roundtrip (mutate : BaseCRD → Except PyErr BaseCRD)
    (request : JObj) (obj : JVal) (mc : BaseCRD) (a b : JVal)
    (hop : request.lookup "operation" = some (jstr "CREATE") ∨
      request.lookup "operation" = some (jstr "UPDATE"))
    (hobj : request.lookup "object" = some obj)
    (ht : obj.truthy = true)
    (hmut : mutate { api := false, group_version := none, read_only := false,
                     crdData := obj } = .ok mc)
    (ha : ({ api := false, group_version := none, read_only := false,
             crdData := obj } : BaseCRD).get_data = .ok a)
    (hb : mc.get_data = .ok b) :
    mutationProcess mutate request =
      (200, { uid := request.lookup "uid", allowed := true, message := none,
              patchType := some "JSONPatch",
              patch := some (b64Encode (strBytes (printPatch (jsonDiff a b)))) }) ∧
    applyPatch (jsonDiff a b) a = some b ∧
    ((∀ x ∈ strBytes (printPatch (jsonDiff a b)), x < 256) →
      b64Decode (b64Encode (strBytes (printPatch (jsonDiff a b)))) =
        some (strBytes (printPatch (jsonDiff a b)))) := by
  refine ⟨?_, applyPatch_jsonDiff a b, fun hascii => b64_roundtrip _ hascii⟩
  rw [mutationProcess,
    mutationTryBody_eval mutate request obj mc a b hop hobj ht hmut ha hb]
  rfl

/-- Witness for C2 amended: the concrete CREATE request under the default
identity mutation. -/
theorem mutation_patch_roundtrip_witness :
    mutationProcess defaultMutate mutRequest =
      (200, { uid := mutRequest.lookup "uid", allowed := true, message := none,
              patchType := some "JSONPatch",
              patch := some (b64Encode (strBytes (printPatch
                (jsonDiff mutGetData mutGetData)))) }) ∧
    applyPatch (jsonDiff mutGetData mutGetData) mutGetData = some mutGetData ∧
    ((∀ x ∈ strBytes (printPatch (jsonDiff mutGetData mutGetData)), x < 256) →
      b64Decode (b64Encode (strBytes (printPatch
          (jsonDiff mutGetData mutGetData)))) =
        some (strBytes (printPatch (jsonDiff mutGetData mutGetData)))) :=
  mutation_patch_roundtrip defaultMutate mutRequest mutObj
    { api := false, group_version := none, read_only := false,
      crdData := mutObj } mutGetData mutGetData
    (Or.inl (by decide)) (by decide) (by decide) (by decide) (by decide)
    (by decide)

theorem getDataView_lookup (fields m : JObj) (k : String) :
    (getDataView fields m).lookup k =
      if k = "metadata" then
        some (jobj (m.strip ["resourceVersion", "managedFields"]))
      else if k = "spec" then some ((fields.lookup "spec").getD (jobj .nil))
      else if k = "status" then some ((fields.lookup "status").getD (jobj .nil))
      else none := by
  by_cases h1 : k = "metadata"
  · simp [getDataView, JObj.ofList, JObj.lookup, h1]
  · by_cases h2 : k = "spec"
    · simp [getDataView, JObj.ofList, JObj.lookup, h1, h2]
    · by_cases h3 : k = "status"
      · simp [getDataView, JObj.ofList, JObj.lookup, h1, h2, h3]
      · have g1 : ¬("metadata" = k) := fun h => h1 h.symm
        have g2 : ¬("spec" = k) := fun h => h2 h.symm
        have g3 : ¬("status" = k) := fun h => h3 h.symm
        simp [getDataView, JObj.ofList, JObj.lookup, g1, g2, g3, h1, h2, h3]

theorem lookup_default_step (c : Prop) [Decidable c] (f : JObj)
    (k k' : String) (v : JVal) (h : k' ≠ k) :
    (if c then f else f.insert k v).lookup k' = f.lookup k' := by
  split
  · rfl
  · exact jobj_lookup_insert_other f k k' v h

theorem lookup_default_self (c : Prop) [Decidable c] (f : JObj)
    (k : String) (v : JVal) :
    (if c then f else f.insert k v).lookup k =
      if c then f.lookup k else some v := by
  split
  · rfl
  · exact jobj_lookup_insert_self f k v

theorem claimStrip_restrict_lookup (fields m : JObj) (k : String)
    (hm : fields.lookup "metadata" = some (jobj m)) :
    (claimStrip (fields.restrict ["metadata", "spec", "status"])).lookup k =
      (getDataView fields m).lookup k := by
  have hrm : (fields.restrict ["metadata", "spec", "status"]).lookup "metadata" =
      some (jobj m) := by
    rw [jobj_lookup_restrict]
    simp [hm]
  have hrs : (fields.restrict ["metadata", "spec", "status"]).lookup "spec" =
      fields.lookup "spec" := by
    rw [jobj_lookup_restrict]
    simp
  have hrst : (fields.restrict ["metadata", "spec", "status"]).lookup "status" =
      fields.lookup "status" := by
    rw [jobj_lookup_restrict]
    simp
  have hf1spec : ((fields.restrict ["metadata", "spec", "status"]).insert
      "metadata" (jobj (m.strip ["resourceVersion", "managedFields"]))).lookup
        "spec" = fields.lookup "spec" := by
    rw [jobj_lookup_insert_other _ _ _ _ (by decide)]
    exact hrs
  have hf1status : ((fields.restrict ["metadata", "spec", "status"]).insert
      "metadata" (jobj (m.strip ["resourceVersion", "managedFields"]))).lookup
        "status" = fields.lookup "status" := by
    rw [jobj_lookup_insert_other _ _ _ _ (by decide)]
    exact hrst
  have hf1meta : ((fields.restrict ["metadata", "spec", "status"]).insert
      "metadata" (jobj (m.strip ["resourceVersion", "managedFields"]))).lookup
        "metadata" =
      some (jobj (m.strip ["resourceVersion", "managedFields"])) :=
    jobj_lookup_insert_self _ "metadata" _
  simp only [claimStrip, hrm]
  rw [getDataView_lookup]
  by_cases h1 : k = "metadata"
  · subst h1
    rw [lookup_default_step _ _ _ _ _ (by decide),
      lookup_default_step _ _ _ _ _ (by decide), hf1meta]
    simp
  · by_cases h2 : k = "spec"
    · subst h2
      rw [lookup_default_step _ _ _ _ _ (by decide), lookup_default_self]
      rcases hs : fields.lookup "spec" with _ | sv
      · simp [JObj.hasKey, hf1spec, hs, h1]
      · simp [JObj.hasKey, hf1spec, hs, h1]
    · by_cases h3 : k = "status"
      · subst h3
        rw [lookup_default_self]
        rcases hst : fields.lookup "status" with _ | tv
        · simp [JObj.hasKey, lookup_default_step _ _ _ _ _
            (show ("status" : String) ≠ "spec" by decide), hf1status, hst,
            h1, h2]
        · simp [JObj.hasKey, lookup_default_step _ _ _ _ _
            (show ("status" : String) ≠ "spec" by decide), hf1status, hst,
            h1, h2]
      · rw [lookup_default_step _ _ _ _ _ h3,
          lookup_default_step _ _ _ _ _ h2,
          jobj_lookup_insert_other _ _ _ _ h1,
          jobj_lookup_restrict]
        simp [h1, h2, h3]

/-- Counterexample to C7 as stated: for a CR instance whose data has a
top-level `kind` key next to the metadata block,
`load_data(get_data(x))` does not equal x's data with
`resourceVersion`/`managedFields` removed and `spec`/`status` defaulted
— `get_data` also drops every top-level key other than
`metadata`/`spec`/`status`, so the `kind` key disappears. -/
theorem get_data_drops_extra_top_level_keys :
    (do
      let g ← kindedCRD.get_data
      let c' ← kindedCRD.load_data g
      pure c'.crdData : Except PyErr JVal) =
      .ok (jobj (getDataView kindedData kindedMeta)) ∧
    JObj.dictEq (getDataView kindedData kindedMeta) (claimStrip kindedData) =
      false := by
  refine ⟨by decide, by decide⟩

/-- C7 amended: for every CR instance whose data contains a metadata
block, `load_data(get_data(x))` yields an internal data dict equal (as a
Python dict) to x's data restricted to the keys
`metadata`/`spec`/`status`, with `resourceVersion`/`managedFields`
removed from metadata and `spec`/`status` defaulted to empty objects
when absent; in particular `get_data` never contains `resourceVersion`
or `managedFields` under metadata. -/
theorem get_data_load_data_roundtrip (c : BaseCRD) (fields m : JObj)
    (hdata : c.crdData = jobj fields)
    (hm : fields.lookup "metadata" = some (jobj m)) :
    c.get_data = .ok (jobj (getDataView fields m)) ∧
    c.load_data (jobj (getDataView fields m)) =
      .ok { c with crdData := jobj (getDataView fields m) } ∧
    JObj.dictEq (getDataView fields m)
      (claimStrip (fields.restrict ["metadata", "spec", "status"])) = true ∧
    (getDataView fields m).lookup "metadata" =
      some (jobj (m.strip ["resourceVersion", "managedFields"])) ∧
    (m.strip ["resourceVersion", "managedFields"]).lookup "resourceVersion" =
      none ∧
    (m.strip ["resourceVersion", "managedFields"]).lookup "managedFields" =
      none := by
  refine ⟨get_data_eval c fields m hdata hm, by simp [BaseCRD.load_data], ?_,
    ?_, ?_, ?_⟩
  · exact jobj_dictEq_of_lookup_eq
      (fun k => (claimStrip_restrict_lookup fields m k hm).symm)
  · exact getDataView_metadata fields m
  · exact jobj_lookup_strip_mem m _ _ (by decide)
  · exact jobj_lookup_strip_mem m _ _ (by decide)

/-- Witness for C7 amended: the concrete instance with a `kind` key. -/
theorem get_data_load_data_roundtrip_witness :
    kindedCRD.get_data = .ok (jobj (getDataView kindedData kindedMeta)) ∧
    kindedCRD.load_data (jobj (getDataView kindedData kindedMeta)) =
      .ok { kindedCRD with crdData := jobj (getDataView kindedData kindedMeta) } ∧
    JObj.dictEq (getDataView kindedData kindedMeta)
      (claimStrip (kindedData.restrict ["metadata", "spec", "status"])) = true ∧
    (getDataView kindedData kindedMeta).lookup "metadata" =
      some (jobj (kindedMeta.strip ["resourceVersion", "managedFields"])) ∧
    (kindedMeta.strip ["resourceVersion", "managedFields"]).lookup
      "resourceVersion" = none ∧
    (kindedMeta.strip ["resourceVersion", "managedFields"]).lookup
      "managedFields" = none :=
  get_data_load_data_roundtrip kindedCRD kindedData kindedMeta
    (by decide) (by decide)

theorem validationCRDInstance_ok (v : JVal) (h : v.truthy = true) :
    validationCRDInstance v =
      .ok { api := false, group_version := none, read_only := true,
            crdData := v } := by
  have hne : ¬ (v = jobj .nil) := by
    intro he
    subst he
    simp [JVal.truthy] at h
  simp [validationCRDInstance, BaseCRD.init, hne]

theorem validationTryBody_create (hooks : ValidationHooks) (request : JObj)
    (obj : JVal)
    (hop : request.lookup "operation" = some (jstr "CREATE"))
    (hobj : request.lookup "object" = some obj)
    (ht : obj.truthy = true) :
    validationTryBody hooks request =
      hooks.create { api := false, group_version := none, read_only := true,
                     crdData := obj } := by
  by_cases hov : ((request.lookup "oldObject").getD .null).truthy = true
  · simp [validationTryBody, hop, hobj, ht,
      validationCRDInstance_ok obj ht,
      validationCRDInstance_ok _ hov,
      assertSome, Bind.bind, Except.bind, pure, Except.pure]
  · simp [validationTryBody, hop, hobj, ht,
      validationCRDInstance_ok obj ht, hov,
      assertSome, Bind.bind, Except.bind, pure, Except.pure]

theorem validationTryBody_bad_delete (hooks : ValidationHooks) (request : JObj)
    (obj : JVal)
    (hop : request.lookup "operation" = some (jstr "DELETE"))
    (hobj : request.lookup "object" = some obj)
    (ht : obj.truthy = true) :
    validationTryBody hooks request =
      .error (.assertionError "CRD instance must be None for delete operation") := by
  by_cases hov : ((request.lookup "oldObject").getD .null).truthy = true
  · simp [validationTryBody, hop, hobj, ht,
      validationCRDInstance_ok obj ht,
      validationCRDInstance_ok _ hov,
      assertSome, assertIsNone, Bind.bind, Except.bind, pure, Except.pure]
  · simp [validationTryBody, hop, hobj, ht,
      validationCRDInstance_ok obj ht, hov,
      assertSome, assertIsNone, Bind.bind, Except.bind, pure, Except.pure]

/-- C5: every validation response echoes the request's uid, and the
status mapping holds end to end — acceptance by the user hook gives
HTTP 200 with `allowed=true`; a `ValidationWebhookError` gives HTTP 200
with `allowed=false` and the rejection reason as the status message; a
request-shape assertion failure (here: a DELETE carrying an object)
gives HTTP 400 with `allowed=false`; any other exception from the hook
gives HTTP 500 with `allowed=false` and a generic message. -/
theorem validation_response_mapping :
    (∀ (hooks : ValidationHooks) (request : JObj),
      (validationProcess hooks request).2.uid = request.lookup "uid") ∧
    (∀ (hooks : ValidationHooks) (request : JObj) (obj : JVal),
      request.lookup "operation" = some (jstr "CREATE") →
      request.lookup "object" = some obj → obj.truthy = true →
      hooks.create { api := false, group_version := none, read_only := true,
                     crdData := obj } = .ok () →
      validationProcess hooks request =
        (200, { uid := request.lookup "uid", allowed := true, message := none,
                patchType := none, patch := none })) ∧
    (∀ (hooks : ValidationHooks) (request : JObj) (obj : JVal) (reason : String),
      request.lookup "operation" = some (jstr "CREATE") →
      request.lookup "object" = some obj → obj.truthy = true →
      hooks.create { api := false, group_version := none, read_only := true,
                     crdData := obj } = .error (.validationWebhookError reason) →
      validationProcess hooks request =
        (200, { uid := request.lookup "uid", allowed := false,
                message := some reason, patchType := none, patch := none })) ∧
    (∀ (hooks : ValidationHooks) (request : JObj) (obj : JVal),
      request.lookup "operation" = some (jstr "DELETE") →
      request.lookup "object" = some obj → obj.truthy = true →
      validationProcess hooks request =
        (400, { uid := request.lookup "uid", allowed := false,
                message := some "CRD instance must be None for delete operation",
                patchType := none, patch := none })) ∧
    (∀ (hooks : ValidationHooks) (request : JObj) (obj : JVal) (msg : String),
      request.lookup "operation" = some (jstr "CREATE") →
      request.lookup "object" = some obj → obj.truthy = true →
      hooks.create { api := false, group_version := none, read_only := true,
                     crdData := obj } = .error (.otherError msg) →
      validationProcess hooks request =
        (500, { uid := request.lookup "uid", allowed := false,
                message := some "Validation webhook error",
                patchType := none, patch := none })) := by
  refine ⟨?_, ?_, ?_, ?_, ?_⟩
  · intro hooks request
    rcases h : validationTryBody hooks request with e | u
    · cases e <;> simp [validationProcess, validationRespond, h]
    · simp [validationProcess, validationRespond, h]
  · intro hooks request obj hop hobj ht hhook
    rw [validationProcess, validationTryBody_create hooks request obj hop hobj ht,
      hhook]
    rfl
  · intro hooks request obj reason hop hobj ht hhook
    rw [validationProcess, validationTryBody_create hooks request obj hop hobj ht,
      hhook]
    rfl
  · intro hooks request obj hop hobj ht
    rw [validationProcess, validationTryBody_bad_delete hooks request obj hop hobj ht]
    rfl
  · intro hooks request obj msg hop hobj ht hhook
    rw [validationProcess, validationTryBody_create hooks request obj hop hobj ht,
      hhook]
    rfl

/-- Witness for C5: the concrete CREATE request under accepting,
rejecting and crashing hooks, and the malformed DELETE request. -/
theorem validation_response_mapping_witness :
    validationProcess acceptHooks createRequest =
      (200, { uid := createRequest.lookup "uid", allowed := true,
              message := none, patchType := none, patch := none }) ∧
    validationProcess rejectHooks createRequest =
      (200, { uid := createRequest.lookup "uid", allowed := false,
              message := some "bad object", patchType := none, patch := none }) ∧
    validationProcess acceptHooks badDeleteRequest =
      (400, { uid := badDeleteRequest.lookup "uid", allowed := false,
              message := some "CRD instance must be None for delete operation",
              patchType := none, patch := none }) ∧
    validationProcess crashHooks createRequest =
      (500, { uid := createRequest.lookup "uid", allowed := false,
              message := some "Validation webhook error",
              patchType := none, patch := none }) :=
  ⟨validation_response_mapping.2.1 acceptHooks createRequest webhookObj
      (by decide) (by decide) (by decide) rfl,
   validation_response_mapping.2.2.1 rejectHooks createRequest webhookObj
      "bad object" (by decide) (by decide) (by decide) rfl,
   validation_response_mapping.2.2.2.1 acceptHooks badDeleteRequest webhookObj
      (by decide) (by decide) (by decide),
   validation_response_mapping.2.2.2.2 crashHooks createRequest webhookObj
      "boom" (by decide) (by decide) (by decide) rfl⟩

/-- Counterexample to C4 as stated: with reviews that explicitly deny the
`watch` verb, controller construction raises `RuntimeWarning` — not
`PermissionError` — and `Operator.start` catches the construction failure
(operator.py:246-257), skips the controller and proceeds into its run
loop (the start phase returns successfully, with no controller added). -/
theorem permission_denial_raises_runtime_warning :
    Controller.controllerInit false true denyWatchReview =
      .error (.runtimeWarning "operator doesn't have watch permission over the CRD") ∧
    operatorStartControllers [denyWatchCfg] = .ok [] := by
  constructor
  · decide
  · decide

/-- Explicit denial of some verb in the list is exactly what makes
`_check_permissions` fail, and the failure is always a RuntimeWarning. -/
theorem check_permissions_ok_or_warning (review : Controller.ReviewEnv) :
    ∀ verbs : List String,
      Controller.check_permissions review verbs = .ok () ∨
      ∃ m, Controller.check_permissions review verbs = .error (.runtimeWarning m) := by
  intro verbs
  induction verbs with
  | nil => exact Or.inl rfl
  | cons v rest ih =>
      simp only [Controller.check_permissions]
      match hv : review v with
      | none => exact ih
      | some (allowed, denied) =>
          by_cases ha : allowed = true
          · simp [ha]
            exact ih
          · by_cases hd : denied = true
            · simp [ha, hd]
            · simp [ha, hd]
              exact ih

/-- C4 amended: controller construction reviews all seven verbs, and it
aborts — by raising `RuntimeWarning`, not `PermissionError` — exactly
when some verb's review is an explicit denial; `Operator.start` catches
any controller-construction failure, skips that controller and proceeds
into its run loop, so the failure is not fatal to operator start. -/
theorem permission_check_characterization :
    (∀ (review : Controller.ReviewEnv) (verbs : List String),
      Controller.check_permissions review verbs = .ok () ↔
        ∀ v ∈ verbs, Controller.explicitDenial review v = false) ∧
    (∀ (review : Controller.ReviewEnv) (verbs : List String),
      (∃ v ∈ verbs, Controller.explicitDenial review v = true) →
      ∃ m, Controller.check_permissions review verbs =
          .error (.runtimeWarning m)) ∧
    (∀ (cfgs : List CtrlCfg) (acc : List String),
      (∀ cfg ∈ cfgs, cfg.has_reconciler = true) →
      ∃ names, addControllers cfgs acc = .ok names) ∧
    (∀ cfgs : List CtrlCfg, cfgs ≠ [] →
      (∀ cfg ∈ cfgs, cfg.has_reconciler = true) →
      ∃ names, operatorStartControllers cfgs = .ok names) := by
  have hchar : ∀ (review : Controller.ReviewEnv) (verbs : List String),
      Controller.check_permissions review verbs = .ok () ↔
        ∀ v ∈ verbs, Controller.explicitDenial review v = false := by
    intro review verbs
    induction verbs with
    | nil => simp [Controller.check_permissions]
    | cons v rest ih =>
        simp only [Controller.check_permissions]
        match hv : review v with
        | none =>
            simp only [List.mem_cons]
            constructor
            · intro h w hw
              rcases hw with hw | hw
              · subst hw
                simp [Controller.explicitDenial, hv]
              · exact (ih.mp h) w hw
            · intro h
              exact ih.mpr (fun w hw => h w (Or.inr hw))
        | some (allowed, denied) =>
            by_cases ha : allowed = true
            · simp only [ha, if_true]
              simp only [List.mem_cons]
              constructor
              · intro h w hw
                rcases hw with hw | hw
                · subst hw
                  simp [Controller.explicitDenial, hv, ha]
                · exact (ih.mp h) w hw
              · intro h
                exact ih.mpr (fun w hw => h w (Or.inr hw))
            · by_cases hd : denied = true
              · simp only [ha, if_false, hd, if_true]
                constructor
                · intro h
                  cases h
                · intro h
                  have := h v (List.mem_cons_self v rest)
                  simp [Controller.explicitDenial, hv, ha, hd] at this
              · simp only [ha, if_false, hd]
                simp only [List.mem_cons]
                constructor
                · intro h w hw
                  rcases hw with hw | hw
                  · subst hw
                    simp [Controller.explicitDenial, hv, ha, hd]
                  · exact (ih.mp h) w hw
                · intro h
                  exact ih.mpr (fun w hw => h w (Or.inr hw))
  have hadd : ∀ (cfgs : List CtrlCfg) (acc : List String),
      (∀ cfg ∈ cfgs, cfg.has_reconciler = true) →
      ∃ names, addControllers cfgs acc = .ok names := by
    intro cfgs
    induction cfgs with
    | nil =>
        intro acc _
        exact ⟨acc, rfl⟩
    | cons cfg rest ih =>
        intro acc h
        have hc : cfg.has_reconciler = true := h cfg (List.mem_cons_self cfg rest)
        have hrest : ∀ c ∈ rest, c.has_reconciler = true :=
          fun c hm => h c (List.mem_cons_of_mem cfg hm)
        simp only [addControllers, hc]
        rcases hcons : (do
            let _ ← Controller.controllerInit cfg.has_validation cfg.types_match cfg.review
            if cfg.name ∈ acc then
              Except.error (PyErr.runtimeError "cannot add an already added controller")
            else Except.ok () : Except PyErr Unit) with e | u
        · exact ih acc hrest
        · exact ih (acc ++ [cfg.name]) hrest
  refine ⟨hchar, ?_, hadd, ?_⟩
  · intro review verbs hex
    rcases check_permissions_ok_or_warning review verbs with hok | hw
    · rcases hex with ⟨v, hv, hden⟩
      have := (hchar review verbs).mp hok v hv
      rw [this] at hden
      cases hden
    · exact hw
  · intro cfgs hne h
    match cfgs, hne with
    | cfg :: rest, _ =>
        simp only [operatorStartControllers]
        exact hadd (cfg :: rest) [] h

/-- Witness for C4 amended: the deny-watch review environment makes the
permission check fail with a RuntimeWarning, and operator start over a
config list using it still proceeds. -/
theorem permission_check_characterization_witness :
    (∃ m, Controller.check_permissions denyWatchReview Controller.permissionVerbs =
        .error (.runtimeWarning m)) ∧
    ∃ names, operatorStartControllers [denyWatchCfg] = .ok names :=
  ⟨permission_check_characterization.2.1 denyWatchReview Controller.permissionVerbs
      ⟨"watch", by decide, by decide⟩,
   permission_check_characterization.2.2.2 [denyWatchCfg]
      (by simp)
      (fun cfg hm => by
        rw [List.mem_singleton] at hm
        rw [hm]
        rfl)⟩

/-- C1: the claim says a 404 `ApiException` or an `UnrecoverableException`
ends the reconciler loop permanently regardless of earlier requeue
intervals.  Evaluating the embedded loop at the failing input shows
otherwise: after iteration 1 returns a 2-second requeue and iteration 2
raises a 404 (or an `UnrecoverableException`), the handler only logs and
the preserved interval makes the loop sleep and run a third fetch +
reconcile iteration.  Only with no pending interval (first outcome a
404) does the loop exit after that iteration, as the repository's own
tests expect. -/
theorem reconciler_loop_survives_404_with_pending_interval :
    loopIterations false none none [.ret (some 2), .api404, .ret none] = 3 ∧
    loopIterations false none none
      [.ret (some 2), .unrecoverable, .ret none] = 3 ∧
    loopIterations false none none [.api404] = 1 ∧
    loopIterations false none none [.unrecoverable] = 1 := by
  decide

/-- C10: constructing a `BaseCRD` with `read_only=True` and data absent or
equal to the empty dict raises `ValueError`; every successfully
constructed read-only instance holds exactly the provided (deep-copied)
data dict, which is non-empty. -/
theorem read_only_crd_requires_data :
    (∀ (api : Bool) (gv : Option String),
      BaseCRD.init api gv true none =
        .error (.valueError "read_only CRD must have data provided") ∧
      BaseCRD.init api gv true (some (jobj .nil)) =
        .error (.valueError "read_only CRD must have data provided")) ∧
    (∀ (api : Bool) (gv : Option String) (d : Option JVal) (c : BaseCRD),
      BaseCRD.init api gv true d = .ok c →
      c.crdData = d.getD (jobj .nil) ∧ c.crdData ≠ jobj .nil) := by
  constructor
  · intro api gv
    constructor <;> simp [BaseCRD.init]
  · intro api gv d c h
    simp only [BaseCRD.init] at h
    split at h
    · cases h
    · rename_i hcond
      cases h
      exact ⟨rfl, fun he => hcond ⟨trivial, he⟩⟩

/-- Witness for C10: a concrete read-only construction succeeds with the
non-empty data preserved. -/
theorem read_only_crd_requires_data_witness :
    ({ api := false, group_version := none, read_only := true,
       crdData := webhookObj } : BaseCRD).crdData =
        (some webhookObj).getD (jobj .nil) ∧
    ({ api := false, group_version := none, read_only := true,
       crdData := webhookObj } : BaseCRD).crdData ≠ jobj .nil :=
  read_only_crd_requires_data.2 false none (some webhookObj)
    { api := false, group_version := none, read_only := true,
      crdData := webhookObj } (by decide)

/-- Counterexample to C9 as stated: the mutation endpoint constructs its
CR instances without `read_only=True` (webhook.py:272-278), so the
instance built from a concrete request object is writable — mutating it
is not a hard error (setting a spec attribute succeeds). -/
theorem mutation_webhook_instance_writable :
    mutationCRDInstance webhookObj =
      .ok { api := false, group_version := none, read_only := false,
            crdData := webhookObj } ∧
    ({ api := false, group_version := none, read_only := false,
       crdData := webhookObj } : BaseCRD).set_attr "mutated" (.jbool true) =
      .ok { api := false, group_version := none, read_only := false,
            crdData := jobj (JObj.ofList
              [("metadata", jobj (JObj.ofList [("name", jstr "x")])),
               ("spec", jobj (JObj.ofList [("mutated", .jbool true)]))]) } := by
  constructor
  · decide
  · decide

/-- C9 amended: the validation endpoint's instances are read-only, carry
no API handle and no GroupVersionInfo, and any attribute write on them is
a hard `RuntimeError`; the mutation endpoint's instances also carry no
API handle and no GroupVersionInfo, but are constructed without
`read_only` and are therefore writable. -/
theorem webhook_instance_construction (obj : JVal) :
    (∀ c : BaseCRD, validationCRDInstance obj = .ok c →
      c.read_only = true ∧ c.api = false ∧ c.group_version = none ∧
      ∀ (name : String) (v : JVal),
        c.set_attr name v =
          .error (.runtimeError "Cannot set attribute on read-only CRD object")) ∧
    (∀ c : BaseCRD, mutationCRDInstance obj = .ok c →
      c.read_only = false ∧ c.api = false ∧ c.group_version = none) := by
  constructor
  · intro c h
    simp only [validationCRDInstance, BaseCRD.init] at h
    split at h
    · cases h
    · cases h
      refine ⟨rfl, rfl, rfl, ?_⟩
      intro name v
      simp [BaseCRD.set_attr]
  · intro c h
    simp only [mutationCRDInstance, BaseCRD.init] at h
    split at h
    · rename_i hcond
      exact absurd hcond.1 (by simp)
    · cases h
      exact ⟨rfl, rfl, rfl⟩

/-- Witness for C9 amended: the validation instance over a concrete
object is read-only and write-protected; the mutation instance is not. -/
theorem webhook_instance_construction_witness :
    (({ api := false, group_version := none, read_only := true,
        crdData := webhookObj } : BaseCRD).read_only = true ∧
      ({ api := false, group_version := none, read_only := true,
         crdData := webhookObj } : BaseCRD).api = false ∧
      ({ api := false, group_version := none, read_only := true,
         crdData := webhookObj } : BaseCRD).group_version = none ∧
      ∀ (name : String) (v : JVal),
        ({ api := false, group_version := none, read_only := true,
           crdData := webhookObj } : BaseCRD).set_attr name v =
          .error (.runtimeError "Cannot set attribute on read-only CRD object")) ∧
    (({ api := false, group_version := none, read_only := false,
        crdData := webhookObj } : BaseCRD).read_only = false ∧
      ({ api := false, group_version := none, read_only := false,
         crdData := webhookObj } : BaseCRD).api = false ∧
      ({ api := false, group_version := none, read_only := false,
         crdData := webhookObj } : BaseCRD).group_version = none) :=
  ⟨(webhook_instance_construction webhookObj).1 _ (by decide),
   (webhook_instance_construction webhookObj).2 _ (by decide)⟩

theorem spanP_spec (p : Char → Bool) :
    ∀ l : List Char,
      l = (spanP p l).1 ++ (spanP p l).2 ∧
      (∀ c ∈ (spanP p l).1, p c = true) ∧
      (∀ c, (spanP p l).2.head? = some c → p c = false) := by
  intro l
  induction l with
  | nil => simp [spanP]
  | cons c rest ih =>
      by_cases hc : p c = true
      · obtain ⟨ih1, ih2, ih3⟩ := ih
        refine ⟨?_, ?_, ?_⟩
        · simp only [spanP, hc, if_true]
          exact congrArg (c :: ·) ih1
        · intro d hd
          simp only [spanP, hc, if_true] at hd
          rcases List.mem_cons.mp hd with hd | hd
          · rw [hd]
            exact hc
          · exact ih2 d hd
        · intro d hd
          simp only [spanP, hc, if_true] at hd
          exact ih3 d hd
      · rw [Bool.not_eq_true] at hc
        refine ⟨?_, ?_, ?_⟩
        · simp [spanP, hc]
        · intro d hd
          simp [spanP, hc] at hd
        · intro d hd
          simp only [spanP, hc, Bool.false_eq_true, if_false,
            List.head?_cons, Option.some.injEq] at hd
          rw [← hd]
          exact hc

theorem spanP_append (p : Char → Bool) :
    ∀ (ds rest : List Char), (∀ c ∈ ds, p c = true) →
      (∀ c, rest.head? = some c → p c = false) →
      spanP p (ds ++ rest) = (ds, rest)
  | [], rest, _, h2 => by
      rcases rest with _ | ⟨r, rs⟩
      · rfl
      · have hr : p r = false := h2 r rfl
        simp [spanP, hr]
  | d :: ds, rest, h1, h2 => by
      have hd : p d = true := h1 d (by simp)
      have ih := spanP_append p ds rest (fun c hc => h1 c (by simp [hc])) h2
      simp [spanP, hd, ih]

theorem digit_not_lower (c : Char) (h : isDigitChar c = true) :
    isLowerChar c = false := by
  simp only [isDigitChar, Bool.and_eq_true, decide_eq_true_eq] at h
  simp only [isLowerChar, Bool.and_eq_true]
  rcases h with ⟨h1, h2⟩
  have : ¬ (97 ≤ c.toNat) := by omega
  simp [this]

theorem charOfDigit_toNat (d : Nat) (h : d < 10) :
    (Char.ofNat (48 + d)).toNat = 48 + d := by
  interval_cases d <;> rfl

theorem natDigits_spec (m : Nat) :
    natDigits m ≠ [] ∧ (∀ c ∈ natDigits m, isDigitChar c = true) ∧
      digitsVal (natDigits m) = m := by
  by_cases hm : m = 0
  · subst hm
    refine ⟨by decide, by decide, by decide⟩
  · have hdig : ∀ d ∈ Nat.digits 10 m, d < 10 := by
      intro d hd
      exact Nat.digits_lt_base (by norm_num) hd
    refine ⟨?_, ?_, ?_⟩
    · simp only [natDigits, hm, if_false]
      simp only [ne_eq, List.map_eq_nil_iff, List.reverse_eq_nil_iff]
      exact Nat.digits_ne_nil_iff_ne_zero.mpr hm
    · intro c hc
      simp only [natDigits, hm, if_false, List.mem_map,
        List.mem_reverse] at hc
      obtain ⟨d, hd, hcd⟩ := hc
      have hlt := hdig d hd
      subst hcd
      simp only [isDigitChar, charOfDigit_toNat d hlt, Bool.and_eq_true,
        decide_eq_true_eq]
      omega
    · have hfold : ∀ (L : List Nat) (a : Nat),
          List.foldl (fun acc d => 10 * acc + d) a L =
            a * 10 ^ L.length + Nat.ofDigits 10 L.reverse := by
        intro L
        induction L with
        | nil => simp [Nat.ofDigits]
        | cons d t iht =>
            intro a
            simp only [List.foldl_cons, List.reverse_cons, List.length_cons]
            rw [iht (10 * a + d), Nat.ofDigits_append]
            simp [Nat.ofDigits]
            ring
      simp only [natDigits, hm, if_false, digitsVal]
      rw [List.foldl_map]
      have hcong : List.foldl
            (fun (acc : Nat) (d : Nat) =>
              10 * acc + ((Char.ofNat (48 + d)).toNat - 48)) 0
            ((Nat.digits 10 m).reverse)
          = List.foldl (fun acc d => 10 * acc + d) 0
            ((Nat.digits 10 m).reverse) := by
        apply List.foldl_ext
        intro a d hd
        have hlt := hdig d (List.mem_reverse.mp hd)
        rw [charOfDigit_toNat d hlt]
        omega
      rw [hcong, hfold]
      simp [Nat.ofDigits_digits]

theorem parseChars_ok_iff (cs : List Char) :
    (parseApiVersionChars cs).isOk = true ↔
      ∃ ds l ds₂ : List Char,
        cs = 'v' :: (ds ++ l ++ ds₂) ∧ ds ≠ [] ∧
          (∀ c ∈ ds, isDigitChar c = true) ∧
          ((l = [] ∧ ds₂ = []) ∨
            ((String.mk l = "alpha" ∨ String.mk l = "beta" ∨
                String.mk l = "stable") ∧
              ds₂ ≠ [] ∧ (∀ c ∈ ds₂, isDigitChar c = true))) := by
  constructor
  · intro h
    rcases cs with _ | ⟨c, rest⟩
    · simp [parseApiVersionChars, Except.isOk, Except.toBool] at h
    by_cases hc : c = 'v'
    swap
    · simp [parseApiVersionChars, hc, Except.isOk, Except.toBool] at h
    subst hc
    obtain ⟨hsplit1, hall1, hhead1⟩ := spanP_spec isDigitChar rest
    simp only [parseApiVersionChars, eq_self_iff_true, if_true] at h
    by_cases hds : (spanP isDigitChar rest).1 = []
    · simp [hds, Except.isOk, Except.toBool] at h
    rw [if_neg hds] at h
    split at h
    · rename_i hrem
      refine ⟨(spanP isDigitChar rest).1, [], [], ?_, hds, hall1,
        Or.inl ⟨rfl, rfl⟩⟩
      rw [List.append_nil, List.append_nil]
      conv_lhs => rw [hsplit1, hrem, List.append_nil]
    · obtain ⟨hsplit2, hall2, hhead2⟩ :=
        spanP_spec isLowerChar (spanP isDigitChar rest).2
      obtain ⟨hsplit3, hall3, hhead3⟩ :=
        spanP_spec isDigitChar (spanP isLowerChar (spanP isDigitChar rest).2).2
      by_cases hcond : (spanP isLowerChar (spanP isDigitChar rest).2).1 = [] ∨
          (spanP isDigitChar
            (spanP isLowerChar (spanP isDigitChar rest).2).2).1 = [] ∨
          (spanP isDigitChar
            (spanP isLowerChar (spanP isDigitChar rest).2).2).2 ≠ []
      · rw [if_pos hcond] at h
        simp [Except.isOk, Except.toBool] at h
      rw [if_neg hcond] at h
      push_neg at hcond
      obtain ⟨hc1, hc2, hc3⟩ := hcond
      by_cases hstab : stabilityKnown
          (String.mk (spanP isLowerChar (spanP isDigitChar rest).2).1) = true
      swap
      · simp [hstab, Except.isOk, Except.toBool] at h
      refine ⟨(spanP isDigitChar rest).1,
        (spanP isLowerChar (spanP isDigitChar rest).2).1,
        (spanP isDigitChar
          (spanP isLowerChar (spanP isDigitChar rest).2).2).1,
        ?_, hds, hall1, Or.inr ⟨?_, hc2, hall3⟩⟩
      · have h3 : (spanP isLowerChar (spanP isDigitChar rest).2).2 =
            (spanP isDigitChar
              (spanP isLowerChar (spanP isDigitChar rest).2).2).1 := by
          conv_lhs => rw [hsplit3]
          rw [hc3, List.append_nil]
        conv_lhs => rw [hsplit1]
        rw [List.append_assoc]
        congr 1
        conv_lhs => rw [hsplit2, h3]
      · simp only [stabilityKnown, Bool.or_eq_true, decide_eq_true_eq] at hstab
        tauto
  · rintro ⟨ds, l, ds₂, hcs, hne, hdig, hcase⟩
    subst hcs
    rcases hcase with ⟨hl, hd2⟩ | ⟨hstab, hne2, hdig2⟩
    · subst hl
      subst hd2
      have hspan : spanP isDigitChar ds = (ds, []) := by
        have := spanP_append isDigitChar ds [] hdig (by intro c hc; cases hc)
        rw [List.append_nil] at this
        exact this
      simp [parseApiVersionChars, hspan, hne, Except.isOk, Except.toBool]
    · have hlower : ∀ c ∈ l, isLowerChar c = true := by
        rcases hstab with hs | hs | hs <;>
          · have hl : l = (String.mk l).data := rfl
            rw [hs] at hl
            rw [hl]
            decide
      have hlne : l ≠ [] := by
        rcases hstab with hs | hs | hs <;>
          · intro he
            rw [he] at hs
            exact absurd hs (by decide)
      have hhead : ∀ c, (l ++ ds₂).head? = some c → isDigitChar c = false := by
        rcases l with _ | ⟨a, t⟩
        · exact absurd rfl hlne
        · intro c hc
          simp only [List.cons_append, List.head?_cons,
            Option.some.injEq] at hc
          subst hc
          have hla := hlower a (by simp)
          simp only [isLowerChar, Bool.and_eq_true, decide_eq_true_eq] at hla
          rw [Bool.eq_false_iff]
          intro hcontra
          simp only [isDigitChar, Bool.and_eq_true, decide_eq_true_eq] at hcontra
          omega
      have hspan1 : spanP isDigitChar (ds ++ l ++ ds₂) = (ds, l ++ ds₂) := by
        rw [List.append_assoc]
        exact spanP_append isDigitChar ds (l ++ ds₂) hdig hhead
      have hheadd : ∀ c, ds₂.head? = some c → isLowerChar c = false := by
        intro c hc
        rcases ds₂ with _ | ⟨d, dt⟩
        · cases hc
        · simp only [List.head?_cons, Option.some.injEq] at hc
          subst hc
          exact digit_not_lower d (hdig2 d (by simp))
      have hspan2 : spanP isLowerChar (l ++ ds₂) = (l, ds₂) :=
        spanP_append isLowerChar l ds₂ hlower hheadd
      have hspan3 : spanP isDigitChar ds₂ = (ds₂, []) := by
        have := spanP_append isDigitChar ds₂ [] hdig2 (by intro c hc; cases hc)
        rw [List.append_nil] at this
        exact this
      have hknown : stabilityKnown (String.mk l) = true := by
        simp only [stabilityKnown, Bool.or_eq_true, decide_eq_true_eq]
        tauto
      have hlcons : ∃ a t, l ++ ds₂ = a :: t := by
        rcases l with _ | ⟨a, t⟩
        · exact absurd rfl hlne
        · exact ⟨a, t ++ ds₂, by simp⟩
      obtain ⟨a, t, hat⟩ := hlcons
      simp only [parseApiVersionChars, eq_self_iff_true, if_true, hspan1,
        if_neg hne, hat]
      rw [← hat]
      simp [hspan2, hspan3, hlne, hne2, hknown, Except.isOk, Except.toBool]

/-- Counterexample to C8 as stated: the code's pattern is
`^v(\d+)(?:([a-z]+)(\d+))?$` with a separate stability check that also
admits `stable`, so `v1stable2` — which does not match the claimed form
`v<major>[(alpha|beta)<minor>]` — is accepted, with stability `stable`
and minor `2`. -/
theorem spec_regex_rejects_accepted_version :
    specApiVersionForm "v1stable2" = false ∧
    parseApiVersion "v1stable2" = .ok (1, "stable", 2) := by
  refine ⟨by decide, by decide⟩

/-- C8 amended: `GroupVersionInfo` construction accepts exactly the
strings `v<digits>[<word><digits>]` whose optional lowercase stability
word is `alpha`, `beta` or `stable`, and fails with InvalidVersion
(`ValueError`) on everything else; for every major m the string `v<m>`
is valid with stability `stable` and minor `0`; `v1alpha0` parses with
minor `0`; `v1beta` (no trailing digit) is rejected. -/
theorem api_version_parsing_language :
    (∀ s : String, (parseApiVersion s).isOk = true ↔ GoodApiVersion s) ∧
    (∀ m : Nat, parseApiVersion ("v" ++ String.mk (natDigits m)) =
      .ok (m, "stable", 0)) ∧
    parseApiVersion "v1alpha0" = .ok (1, "alpha", 0) ∧
    parseApiVersion "v1beta" = .error (.valueError "Invalid format") := by
  refine ⟨?_, ?_, by decide, by decide⟩
  · intro s
    exact parseChars_ok_iff s.data
  · intro m
    obtain ⟨hne, hdig, hval⟩ := natDigits_spec m
    have hdata : ("v" ++ String.mk (natDigits m)).data = 'v' :: natDigits m := by
      rw [String.data_append]
      rfl
    have hspan : spanP isDigitChar (natDigits m) = (natDigits m, []) := by
      have := spanP_append isDigitChar (natDigits m) [] hdig
        (by intro c hc; cases hc)
      rw [List.append_nil] at this
      exact this
    rw [parseApiVersion, hdata]
    simp [parseApiVersionChars, hspan, hne, hval]
